import Mathlib

/-!
# Benchmark configuration store (`internal/config/bench.go`)

A shallow embedding of the benchmark configuration loader of k9s.

* Go structs are Lean structures with the same field names.
* Go `int` is the 64-bit machine integer; it is `Int` here, and the only place
  where the width matters (decoding a YAML integer into an `int` field) checks
  the range explicitly.
* A Go map is `GoMap`: `none` is the nil map, `some l` a non-nil map whose
  entries are the association list `l` (keys unique, order irrelevant).
* A Go slice of strings is `List String`; the nil and the empty slice are both
  `[]`.
* A pointer to a struct that may be nil (`Bench.Benchmarks`) is an `Option`.
* The store is mutated through a pointer in Go; here `load` and `Reload` take
  the store and return the store after the call.

`load` calls two library functions, `os.ReadFile` and `yaml.Unmarshal` of
`gopkg.in/yaml.v2`.  The file system is a parameter (`FileSystem`).  The YAML
library is embedded in two stages, as the library itself works
(`unmarshal` in `yaml.go`: `node := p.parse()` and then `d.unmarshal(node, v)`):
the bytes of a file are represented by what the library's parser makes of them
(`Content`: a syntax error, an empty stream, or the node tree of the first
document), and the decoder (`decode.go`) is embedded for the types of
`bench.go`.
-/

namespace Config

/-! ## Go maps -/

/-- A Go `map[string]α`: `none` is the nil map. -/
abbrev GoMap (α : Type) := Option (List (String × α))

/-- Go's `m[k] = v` on the entries of a non-nil map: replaces the entry of `k`
or adds one. -/
def setIndex {α : Type} (k : String) (v : α) : List (String × α) → List (String × α)
  | [] => [(k, v)]
  | (k', v') :: rest =>
    if k' = k then (k, v) :: rest else (k', v') :: setIndex k v rest

/-- Go's `v, ok := m[k]`; a nil map has no entries. -/
def GoMap.get {α : Type} (m : GoMap α) (k : String) : Option α :=
  match m with
  | none => none
  | some l => l.lookup k

/-- Go's `len(m)`. -/
def GoMap.len {α : Type} (m : GoMap α) : Nat :=
  match m with
  | none => 0
  | some l => l.length

/-! ## The data model (`bench.go`, lines 13-67) -/

/-- Auth basic auth creds. -/
structure Auth where
  User : String
  Password : String
  deriving DecidableEq, Repr

/-- Benchmark represents a generic benchmark. -/
structure Benchmark where
  C : Int
  N : Int
  deriving DecidableEq, Repr

/-- HTTP represents an http request.  `Headers` is `http.Header`, that is
`map[string][]string`. -/
structure HTTP where
  Method : String
  Host : String
  Path : String
  HTTPS : Bool
  HTTP2 : Bool
  Body : String
  Headers : GoMap (List String)
  deriving DecidableEq, Repr

/-- ServiceResolution represents settings for how to resolve a k8s Service. -/
structure ServiceResolution where
  Mode : String
  deriving DecidableEq, Repr

/-- BenchConfig represents a service benchmark. -/
structure BenchConfig where
  Name : String
  C : Int
  N : Int
  Auth : Auth
  HTTP : HTTP
  ServiceResolution : ServiceResolution
  deriving DecidableEq, Repr

/-- Benchmarks tracks K9s benchmarks configuration. -/
structure Benchmarks where
  Defaults : Benchmark
  Services : GoMap BenchConfig
  Containers : GoMap BenchConfig
  deriving DecidableEq, Repr

/-- Bench is the store; `Benchmarks` is a pointer and may be nil. -/
structure Bench where
  Benchmarks : Option Benchmarks
  deriving DecidableEq, Repr

/-! ### Go zero values -/

/-- The zero value of `Auth`. -/
def Auth.zero : Auth := ⟨"", ""⟩

/-- The zero value of `Benchmark`. -/
def Benchmark.zero : Benchmark := ⟨0, 0⟩

/-- The zero value of `HTTP`. -/
def HTTP.zero : HTTP := ⟨"", "", "", false, false, "", none⟩

/-- The zero value of `ServiceResolution`. -/
def ServiceResolution.zero : ServiceResolution := ⟨""⟩

/-- The zero value of `BenchConfig`. -/
def BenchConfig.zero : BenchConfig :=
  ⟨"", 0, 0, Auth.zero, HTTP.zero, ServiceResolution.zero⟩

/-- The zero value of `Benchmarks`. -/
def Benchmarks.zero : Benchmarks := ⟨Benchmark.zero, none, none⟩

/-! ## Constants and pure functions (`bench.go`, lines 69-94 and 118-128) -/

/-- DefaultC default concurrency. -/
def DefaultC : Int := 1

/-- DefaultN default number of requests. -/
def DefaultN : Int := 200

/-- DefaultMethod default http verb. -/
def DefaultMethod : String := "GET"

/-- The Go function `newBenchmark`. -/
def newBenchmark : Benchmark :=
  { C := DefaultC, N := DefaultN }

/-- Empty checks if the benchmark is set: `b.C == 0 && b.N == 0`. -/
def Benchmark.Empty (b : Benchmark) : Bool :=
  b.C == 0 && b.N == 0

/-- The Go function `newBenchmarks`: only `Defaults` is given, the two maps
are nil. -/
def newBenchmarks : Benchmarks :=
  { Benchmarks.zero with Defaults := newBenchmark }

/-- DefaultBenchSpec returns a default bench spec: the fields not listed in the
composite literal have their zero value. -/
def DefaultBenchSpec : BenchConfig :=
  { BenchConfig.zero with
    C := DefaultC
    N := DefaultN
    HTTP := { HTTP.zero with Method := DefaultMethod, Path := "/" } }

/-! ## The YAML library (`gopkg.in/yaml.v2`)

`yaml.Unmarshal` first parses the bytes into a tree of nodes and then decodes
the tree into the Go value by reflection.  The tree is the data below; the
decoder is written out for the types of `bench.go`.

Scope of the embedding: documents without anchors, aliases, merge keys (a plain
`<<` key) and explicit tags, whose scalars resolve to null, a boolean, an
integer, a float or a string (no timestamp or binary scalar). -/

/-- What `resolve` (`resolve.go`) makes of a scalar: `null` for a plain scalar
that is empty or one of `~`, `null`, `Null`, `NULL`, `bool` and `int` for a
plain scalar that reads as one
(`int` covers the Go types `int`, `int64` and `uint64` that `resolve` returns,
the integers from the least `int` to the greatest `uint64`), `float` for a
plain scalar that reads as a number and is not one of these (a decimal
fraction, or an integer outside that range), `str` for every other scalar,
quoted ones included.

The `float64` itself is not kept: of a float the decoder uses the text, and for
an `int` field the value `asInt`, which is `int64(resolved)` when
`resolved <= math.MaxInt64` (`d.scalar`, case `reflect.Int`) and is missing
otherwise. -/
inductive Resolved
  | null
  | bool (b : Bool)
  | int (i : Int)
  | float (asInt : Option Int)
  | str
  deriving DecidableEq, Repr

/-- A node of the parsed document (`node` in `decode.go`): a scalar with its
text (`n.value`) and what it resolves to, a mapping with its key and value
nodes in document order, or a sequence. -/
inductive Node
  | scalar (value : String) (resolved : Resolved)
  | mapping (children : List (Node × Node))
  | sequence (children : List Node)

/-- What the parser (`p.parse()`) makes of the bytes of a file: it fails
(a syntax error, raised before anything is decoded), finds no document (an
empty stream), or returns the tree of the first document. -/
inductive Content
  | malformed (msg : String)
  | empty
  | document (root : Node)

/-- The result of `d.unmarshal(n, out)`: the value of `out` after the call, the
boolean it returns, and the number of messages it added to `d.terrors`. -/
structure Decoded (α : Type) where
  out : α
  good : Bool
  terrors : Nat
  deriving DecidableEq, Repr

/-- The least value of a Go `int` (64 bits). -/
def minInt : Int := -9223372036854775808

/-- The greatest value of a Go `int` (64 bits). -/
def maxInt : Int := 9223372036854775807

/-- Decoding a node into a `string` (`d.scalar`, case `reflect.String`): null
sets the zero value, every other scalar sets its text; a mapping or a sequence
is a type error and leaves `out` alone. -/
def unmarshalString (n : Node) (out : String) : Decoded String :=
  match n with
  | .scalar _ .null => ⟨"", true, 0⟩
  | .scalar value _ => ⟨value, true, 0⟩
  | .mapping _ => ⟨out, false, 1⟩
  | .sequence _ => ⟨out, false, 1⟩

/-- Decoding a node into an `int` (`d.scalar`, case `reflect.Int`): null sets
zero, an integer that fits is set, a float that is not above `math.MaxInt64`
is set as converted to `int64`, everything else is a type error. -/
def unmarshalInt (n : Node) (out : Int) : Decoded Int :=
  match n with
  | .scalar _ .null => ⟨0, true, 0⟩
  | .scalar _ (.int i) =>
    if minInt ≤ i ∧ i ≤ maxInt then ⟨i, true, 0⟩ else ⟨out, false, 1⟩
  | .scalar _ (.float (some i)) => ⟨i, true, 0⟩
  | .scalar _ _ => ⟨out, false, 1⟩
  | .mapping _ => ⟨out, false, 1⟩
  | .sequence _ => ⟨out, false, 1⟩

/-- Decoding a node into a `bool` (`d.scalar`, case `reflect.Bool`). -/
def unmarshalBool (n : Node) (out : Bool) : Decoded Bool :=
  match n with
  | .scalar _ .null => ⟨false, true, 0⟩
  | .scalar _ (.bool b) => ⟨b, true, 0⟩
  | .scalar _ _ => ⟨out, false, 1⟩
  | .mapping _ => ⟨out, false, 1⟩
  | .sequence _ => ⟨out, false, 1⟩

/-- The loop of `d.sequence` for a `[]string`: every item is decoded into a
fresh element, the good ones are kept in order. -/
def sequenceStrings : List Node → List String × Nat
  | [] => ([], 0)
  | n :: rest =>
    let e := unmarshalString n ""
    let r := sequenceStrings rest
    (if e.good then e.out :: r.1 else r.1, e.terrors + r.2)

/-- Decoding a node into a `[]string`: null sets the nil slice, a sequence
makes a new slice, a mapping (`d.mappingSlice`) or another scalar is a type
error. -/
def unmarshalStrings (n : Node) (out : List String) : Decoded (List String) :=
  match n with
  | .scalar _ .null => ⟨[], true, 0⟩
  | .scalar _ _ => ⟨out, false, 1⟩
  | .mapping _ => ⟨out, false, 1⟩
  | .sequence items =>
    let r := sequenceStrings items
    ⟨r.1, true, r.2⟩

/-- The loop of `d.mapping` for a Go map with string keys: the key is decoded
into a fresh string and the value into a fresh element (`reflect.New(et)`), and
the element is stored under the key when both are good.  Entries already in the
map are not removed. -/
def mappingMap {α : Type} (zero : α) (elem : Node → α → Decoded α) :
    List (Node × Node) → List (String × α) → List (String × α) × Nat
  | [], out => (out, 0)
  | (nk, nv) :: rest, out =>
    let k := unmarshalString nk ""
    if k.good then
      let e := elem nv zero
      let r := mappingMap zero elem rest (if e.good then setIndex k.out e.out out else out)
      (r.1, e.terrors + r.2)
    else
      let r := mappingMap zero elem rest out
      (r.1, k.terrors + r.2)

/-- Decoding a node into a Go map (`d.scalar` and `d.mapping`): null sets the
nil map; a mapping makes the map when it is nil
(`if out.IsNil() { out.Set(reflect.MakeMap(outt)) }`) and then stores the
entries of the node into it. -/
def unmarshalMap {α : Type} (zero : α) (elem : Node → α → Decoded α)
    (n : Node) (out : GoMap α) : Decoded (GoMap α) :=
  match n with
  | .scalar _ .null => ⟨none, true, 0⟩
  | .scalar _ _ => ⟨out, false, 1⟩
  | .mapping children =>
    let r := mappingMap zero elem children (out.getD [])
    ⟨some r.1, true, r.2⟩
  | .sequence _ => ⟨out, false, 1⟩

/-- The loop of `d.mappingStruct`: the key is decoded into a string and looked
up among the keys of the struct (`sinfo.FieldsMap`); `field name` is the decoding
into the field of that key, giving the struct after it and the type errors it
adds.  A key that names no field is skipped, and the fields no key names are
left as they are. -/
def mappingStruct {T : Type} (field : String → Option (Node → T → T × Nat)) :
    List (Node × Node) → T → T × Nat
  | [], out => (out, 0)
  | (nk, nv) :: rest, out =>
    let name := unmarshalString nk ""
    if name.good then
      match field name.out with
      | some dec =>
        let r := dec nv out
        let r' := mappingStruct field rest r.1
        (r'.1, r.2 + r'.2)
      | none => mappingStruct field rest out
    else
      let r' := mappingStruct field rest out
      (r'.1, name.terrors + r'.2)

/-- Decoding a node into a struct: null sets the zero value, a mapping sets the
fields its keys name, a sequence or another scalar is a type error. -/
def unmarshalStruct {T : Type} (zero : T) (field : String → Option (Node → T → T × Nat))
    (n : Node) (out : T) : Decoded T :=
  match n with
  | .scalar _ .null => ⟨zero, true, 0⟩
  | .scalar _ _ => ⟨out, false, 1⟩
  | .mapping children =>
    let r := mappingStruct field children out
    ⟨r.1, true, r.2⟩
  | .sequence _ => ⟨out, false, 1⟩

/-! ### The keys of the structs of `bench.go` -/

/-- Keys of `Auth`: `user`, `password`. -/
def Auth.field (name : String) : Option (Node → Auth → Auth × Nat) :=
  if name = "user" then
    some fun n a => let r := unmarshalString n a.User; ({ a with User := r.out }, r.terrors)
  else if name = "password" then
    some fun n a => let r := unmarshalString n a.Password; ({ a with Password := r.out }, r.terrors)
  else none

/-- Keys of `Benchmark`: `concurrency`, `requests`. -/
def Benchmark.field (name : String) : Option (Node → Benchmark → Benchmark × Nat) :=
  if name = "concurrency" then
    some fun n b => let r := unmarshalInt n b.C; ({ b with C := r.out }, r.terrors)
  else if name = "requests" then
    some fun n b => let r := unmarshalInt n b.N; ({ b with N := r.out }, r.terrors)
  else none

/-- Decoding into `http.Header`. -/
def unmarshalHeader (n : Node) (out : GoMap (List String)) : Decoded (GoMap (List String)) :=
  unmarshalMap [] unmarshalStrings n out

/-- Keys of `HTTP`: `method`, `host`, `path`, `https`, `http2`, `body`,
`headers`. -/
def HTTP.field (name : String) : Option (Node → HTTP → HTTP × Nat) :=
  if name = "method" then
    some fun n h => let r := unmarshalString n h.Method; ({ h with Method := r.out }, r.terrors)
  else if name = "host" then
    some fun n h => let r := unmarshalString n h.Host; ({ h with Host := r.out }, r.terrors)
  else if name = "path" then
    some fun n h => let r := unmarshalString n h.Path; ({ h with Path := r.out }, r.terrors)
  else if name = "https" then
    some fun n h => let r := unmarshalBool n h.HTTPS; ({ h with HTTPS := r.out }, r.terrors)
  else if name = "http2" then
    some fun n h => let r := unmarshalBool n h.HTTP2; ({ h with HTTP2 := r.out }, r.terrors)
  else if name = "body" then
    some fun n h => let r := unmarshalString n h.Body; ({ h with Body := r.out }, r.terrors)
  else if name = "headers" then
    some fun n h => let r := unmarshalHeader n h.Headers; ({ h with Headers := r.out }, r.terrors)
  else none

/-- Keys of `ServiceResolution`: `mode`. -/
def ServiceResolution.field (name : String) :
    Option (Node → ServiceResolution → ServiceResolution × Nat) :=
  if name = "mode" then
    some fun n r0 => let r := unmarshalString n r0.Mode; ({ r0 with Mode := r.out }, r.terrors)
  else none

/-- Keys of `BenchConfig`: `concurrency`, `requests`, `auth`, `http`,
`serviceResolution`, and `name` for the field `Name`, which has no tag (the key
of an untagged field is its name in lower case). -/
def BenchConfig.field (name : String) : Option (Node → BenchConfig → BenchConfig × Nat) :=
  if name = "name" then
    some fun n b => let r := unmarshalString n b.Name; ({ b with Name := r.out }, r.terrors)
  else if name = "concurrency" then
    some fun n b => let r := unmarshalInt n b.C; ({ b with C := r.out }, r.terrors)
  else if name = "requests" then
    some fun n b => let r := unmarshalInt n b.N; ({ b with N := r.out }, r.terrors)
  else if name = "auth" then
    some fun n b =>
      let r := unmarshalStruct Auth.zero Auth.field n b.Auth
      ({ b with Auth := r.out }, r.terrors)
  else if name = "http" then
    some fun n b =>
      let r := unmarshalStruct HTTP.zero HTTP.field n b.HTTP
      ({ b with HTTP := r.out }, r.terrors)
  else if name = "serviceResolution" then
    some fun n b =>
      let r := unmarshalStruct ServiceResolution.zero ServiceResolution.field n b.ServiceResolution
      ({ b with ServiceResolution := r.out }, r.terrors)
  else none

/-- Decoding a node into a `BenchConfig`. -/
def unmarshalBenchConfig (n : Node) (out : BenchConfig) : Decoded BenchConfig :=
  unmarshalStruct BenchConfig.zero BenchConfig.field n out

/-- Keys of `Benchmarks`: `defaults`, `services`, `containers`.  The tags of
`Services` and `Containers` are spelled `yam'`, which the library does not
read; their keys are then the field names in lower case, the same words. -/
def Benchmarks.field (name : String) : Option (Node → Benchmarks → Benchmarks × Nat) :=
  if name = "defaults" then
    some fun n b =>
      let r := unmarshalStruct Benchmark.zero Benchmark.field n b.Defaults
      ({ b with Defaults := r.out }, r.terrors)
  else if name = "services" then
    some fun n b =>
      let r := unmarshalMap BenchConfig.zero unmarshalBenchConfig n b.Services
      ({ b with Services := r.out }, r.terrors)
  else if name = "containers" then
    some fun n b =>
      let r := unmarshalMap BenchConfig.zero unmarshalBenchConfig n b.Containers
      ({ b with Containers := r.out }, r.terrors)
  else none

/-- The test of `d.prepare` that keeps a pointer from being followed: the
scalar has the text `null` or `~`, quoted or not, or is the plain empty scalar
(`n.value == "" && n.implicit`; the quoted empty scalar resolves to a string). -/
def prepareNull (value : String) (resolved : Resolved) : Bool :=
  value == "null" || value == "~" || (value == "" && resolved == .null)

/-- Decoding a node into the pointer `*Benchmarks` (`d.prepare`, then by
kind).  For a scalar that `d.prepare` takes for null the pointer itself is the
target of `d.scalar`: it is set to nil when the scalar resolves to null, and a
quoted `null` or `~` is a type error.  For any other node a nil pointer is
first made to point to a new zero struct, and the node is decoded into the
struct pointed to. -/
def unmarshalBenchmarksPtr (n : Node) (out : Option Benchmarks) : Decoded (Option Benchmarks) :=
  match n with
  | .scalar value resolved =>
    if prepareNull value resolved then
      if resolved = .null then ⟨none, true, 0⟩ else ⟨out, false, 1⟩
    else
      let r := unmarshalStruct Benchmarks.zero Benchmarks.field (.scalar value resolved)
        (out.getD Benchmarks.zero)
      ⟨some r.out, r.good, r.terrors⟩
  | .mapping children =>
    let r := unmarshalStruct Benchmarks.zero Benchmarks.field (.mapping children)
      (out.getD Benchmarks.zero)
    ⟨some r.out, r.good, r.terrors⟩
  | .sequence items =>
    let r := unmarshalStruct Benchmarks.zero Benchmarks.field (.sequence items)
      (out.getD Benchmarks.zero)
    ⟨some r.out, r.good, r.terrors⟩

/-- Keys of `Bench`: `benchmarks`. -/
def Bench.field (name : String) : Option (Node → Bench → Bench × Nat) :=
  if name = "benchmarks" then
    some fun n s =>
      let r := unmarshalBenchmarksPtr n s.Benchmarks
      ({ s with Benchmarks := r.out }, r.terrors)
  else none

/-- Decoding the root node into `&s`, where `s` is the non-nil `*Bench` of
`load`: the store after it and the number of type errors.  For a scalar that
`d.prepare` takes for null the target is the local pointer `s` of `load`, which
is set to nil (or is a type error, for a quoted `null` or `~`), and the store
is left alone.  Any other node is decoded into the store that `s` points to. -/
def unmarshalRoot (root : Node) (s : Bench) : Bench × Nat :=
  match root with
  | .scalar value resolved =>
    if prepareNull value resolved then
      (s, if resolved = .null then 0 else 1)
    else
      let r := unmarshalStruct { Benchmarks := none } Bench.field (.scalar value resolved) s
      (r.out, r.terrors)
  | .mapping children => mappingStruct Bench.field children s
  | .sequence _ => (s, 1)

/-! ## Errors, the file system and the store operations -/

/-- The error of `os.ReadFile`. -/
structure ReadError where
  msg : String
  deriving DecidableEq, Repr

/-- The error of `yaml.Unmarshal`: a syntax error of the parser, or a
`*yaml.TypeError` holding the type errors collected while decoding. -/
inductive YamlError
  | malformed (msg : String)
  | typeError (count : Nat)
  deriving DecidableEq, Repr

/-- The two kinds of error `load` returns. -/
inductive Error
  | read (e : ReadError)
  | parse (e : YamlError)
  deriving DecidableEq, Repr

/-- The state of the file system: what `os.ReadFile` returns for a path. -/
abbrev FileSystem := String → Except ReadError Content

/-- The call `yaml.Unmarshal(f, &s)` (`unmarshal` in `yaml.go`): a syntax error is
returned before anything is decoded; without a document nothing is done; else
the root is decoded and a `TypeError` returned if `d.terrors` is not empty, the
store keeping what was decoded. -/
def Unmarshal (f : Content) (s : Bench) : Bench × Option Error :=
  match f with
  | .malformed msg => (s, some (.parse (.malformed msg)))
  | .empty => (s, none)
  | .document root =>
    let r := unmarshalRoot root s
    (r.1, if r.2 = 0 then none else some (.parse (.typeError r.2)))

/-- Load K9s benchmark configs from file. -/
def load (fs : FileSystem) (path : String) (s : Bench) : Bench × Option Error :=
  match fs path with
  | .error err => (s, some (.read err))
  | .ok f => Unmarshal f s

/-- NewBench creates a new default config: the store and the error of `load`. -/
def NewBench (fs : FileSystem) (path : String) : Bench × Option Error :=
  load fs path { Benchmarks := some newBenchmarks }

/-- Reload update the configuration from disk. -/
def Reload (fs : FileSystem) (path : String) (s : Bench) : Bench × Option Error :=
  load fs path s

/-! ## Documents of the schema, written in the order of the schema

The file format of the configuration, as a typed document: every key of the
schema is optional, and `toNode` writes the document out as the node tree of
the YAML text that holds the present keys in the order of the schema.  These
documents serve as examples; documents of any key order are read by their keys
further down (`storeOf`, `matchesSchema`). -/

/-- A string scalar, also used for the keys. -/
def str (s : String) : Node := .scalar s .str

/-- An integer scalar, for an integer that `resolve` returns as one. -/
def num (i : Int) : Node := .scalar (toString i) (.int i)

/-- A boolean scalar. -/
def boolNode (b : Bool) : Node := .scalar (if b then "true" else "false") (.bool b)

/-- A sequence of strings. -/
def stringsNode (l : List String) : Node := .sequence (l.map str)

/-- The mapping `headers`: each key with its sequence of values. -/
def headersNode (l : List (String × List String)) : Node :=
  .mapping (l.map fun kv => (str kv.1, stringsNode kv.2))

/-- An optional key of a mapping. -/
def opt {α : Type} (key : String) (v : Option α) (f : α → Node) : List (Node × Node) :=
  match v with
  | none => []
  | some a => [(str key, f a)]

/-- The value of the key `auth`. -/
structure AuthDoc where
  user : Option String
  password : Option String
  deriving DecidableEq, Repr

/-- The value of the key `http`. -/
structure HTTPDoc where
  method : Option String
  host : Option String
  path : Option String
  https : Option Bool
  http2 : Option Bool
  body : Option String
  headers : Option (List (String × List String))
  deriving DecidableEq, Repr

/-- The value of the key `serviceResolution`. -/
structure ServiceResolutionDoc where
  mode : Option String
  deriving DecidableEq, Repr

/-- An entry under `services` or `containers`. -/
structure EntryDoc where
  concurrency : Option Int
  requests : Option Int
  auth : Option AuthDoc
  http : Option HTTPDoc
  serviceResolution : Option ServiceResolutionDoc
  deriving DecidableEq, Repr

/-- The value of the key `defaults`. -/
structure DefaultsDoc where
  concurrency : Option Int
  requests : Option Int
  deriving DecidableEq, Repr

/-- The value of the key `benchmarks`. -/
structure BenchmarksDoc where
  defaults : Option DefaultsDoc
  services : Option (List (String × EntryDoc))
  containers : Option (List (String × EntryDoc))
  deriving DecidableEq, Repr

/-- A document of the schema. -/
structure BenchDoc where
  benchmarks : Option BenchmarksDoc
  deriving DecidableEq, Repr

/-- The mapping of `auth`. -/
def AuthDoc.toNode (d : AuthDoc) : Node :=
  .mapping (opt "user" d.user str ++ opt "password" d.password str)

/-- The mapping of `http`. -/
def HTTPDoc.toNode (d : HTTPDoc) : Node :=
  .mapping (opt "method" d.method str ++ opt "host" d.host str ++ opt "path" d.path str ++
    opt "https" d.https boolNode ++ opt "http2" d.http2 boolNode ++ opt "body" d.body str ++
    opt "headers" d.headers headersNode)

/-- The mapping of `serviceResolution`. -/
def ServiceResolutionDoc.toNode (d : ServiceResolutionDoc) : Node :=
  .mapping (opt "mode" d.mode str)

/-- The mapping of an entry. -/
def EntryDoc.toNode (d : EntryDoc) : Node :=
  .mapping (opt "concurrency" d.concurrency num ++ opt "requests" d.requests num ++
    opt "auth" d.auth AuthDoc.toNode ++ opt "http" d.http HTTPDoc.toNode ++
    opt "serviceResolution" d.serviceResolution ServiceResolutionDoc.toNode)

/-- The mapping of `defaults`. -/
def DefaultsDoc.toNode (d : DefaultsDoc) : Node :=
  .mapping (opt "concurrency" d.concurrency num ++ opt "requests" d.requests num)

/-- The mapping `services` or `containers`: each name with its entry. -/
def entriesNode (l : List (String × EntryDoc)) : Node :=
  .mapping (l.map fun kv => (str kv.1, kv.2.toNode))

/-- The mapping of `benchmarks`. -/
def BenchmarksDoc.toNode (d : BenchmarksDoc) : Node :=
  .mapping (opt "defaults" d.defaults DefaultsDoc.toNode ++ opt "services" d.services entriesNode ++
    opt "containers" d.containers entriesNode)

/-- The root of the document. -/
def BenchDoc.toNode (d : BenchDoc) : Node :=
  .mapping (opt "benchmarks" d.benchmarks BenchmarksDoc.toNode)

/-! ### The values of a document

What a document says about each field, written from the document alone: the
value of a key that is present, and for a key that is absent the zero value
(in an entry) or the default of the constructor (in `defaults`). -/

/-- The `BenchConfig` that an entry describes. -/
def EntryDoc.toConfig (d : EntryDoc) : BenchConfig :=
  { Name := ""
    C := d.concurrency.getD 0
    N := d.requests.getD 0
    Auth :=
      { User := (d.auth.bind fun a => a.user).getD ""
        Password := (d.auth.bind fun a => a.password).getD "" }
    HTTP :=
      { Method := (d.http.bind fun h => h.method).getD ""
        Host := (d.http.bind fun h => h.host).getD ""
        Path := (d.http.bind fun h => h.path).getD ""
        HTTPS := (d.http.bind fun h => h.https).getD false
        HTTP2 := (d.http.bind fun h => h.http2).getD false
        Body := (d.http.bind fun h => h.body).getD ""
        Headers := d.http.bind fun h => h.headers }
    ServiceResolution :=
      { Mode := (d.serviceResolution.bind fun r => r.mode).getD "" } }

/-- The `Benchmarks` that the value of `benchmarks` describes. -/
def BenchmarksDoc.toBenchmarks (d : BenchmarksDoc) : Benchmarks :=
  { Defaults :=
      { C := (d.defaults.bind fun b => b.concurrency).getD DefaultC
        N := (d.defaults.bind fun b => b.requests).getD DefaultN }
    Services := d.services.map fun l => l.map fun kv => (kv.1, kv.2.toConfig)
    Containers := d.containers.map fun l => l.map fun kv => (kv.1, kv.2.toConfig) }

/-- The `Benchmarks` that a document describes: without the key `benchmarks`,
what the constructor made. -/
def BenchDoc.toBenchmarks (d : BenchDoc) : Benchmarks :=
  match d.benchmarks with
  | none => newBenchmarks
  | some b => b.toBenchmarks

/-- The store that a document describes. -/
def BenchDoc.toBench (d : BenchDoc) : Bench :=
  { Benchmarks := some d.toBenchmarks }

/-! ### A document decoded on top of a value

What decoding a document into a value that is already there gives: a key that
is present sets its field, a key that is absent leaves the field as it was,
and the entries of a mapping are stored into the map that is there. -/

/-- Storing the entries of a list into the entries of a map, in order. -/
def storeAll {α β : Type} (f : α → β) : List (String × α) → List (String × β) → List (String × β)
  | [], m => m
  | (k, a) :: rest, m => storeAll f rest (setIndex k (f a) m)

/-- Storing the entries of an optional mapping into a map. -/
def storeInto {α β : Type} (f : α → β) (v : Option (List (String × α))) (m : GoMap β) : GoMap β :=
  match v with
  | none => m
  | some l => some (storeAll f l (m.getD []))

/-- A present sub-document applied to a field. -/
def applyOpt {D T : Type} (apply : D → T → T) (v : Option D) (t : T) : T :=
  match v with
  | none => t
  | some d => apply d t

/-- The keys of `auth` set on an `Auth`. -/
def AuthDoc.apply (d : AuthDoc) (a : Auth) : Auth :=
  { User := d.user.getD a.User, Password := d.password.getD a.Password }

/-- The keys of `http` set on an `HTTP`; the headers are stored into the map. -/
def HTTPDoc.apply (d : HTTPDoc) (h : HTTP) : HTTP :=
  { Method := d.method.getD h.Method
    Host := d.host.getD h.Host
    Path := d.path.getD h.Path
    HTTPS := d.https.getD h.HTTPS
    HTTP2 := d.http2.getD h.HTTP2
    Body := d.body.getD h.Body
    Headers := storeInto (fun x => x) d.headers h.Headers }

/-- The keys of `serviceResolution` set on a `ServiceResolution`. -/
def ServiceResolutionDoc.apply (d : ServiceResolutionDoc) (r : ServiceResolution) :
    ServiceResolution :=
  { Mode := d.mode.getD r.Mode }

/-- The keys of an entry set on a `BenchConfig`. -/
def EntryDoc.apply (d : EntryDoc) (b : BenchConfig) : BenchConfig :=
  { Name := b.Name
    C := d.concurrency.getD b.C
    N := d.requests.getD b.N
    Auth := applyOpt AuthDoc.apply d.auth b.Auth
    HTTP := applyOpt HTTPDoc.apply d.http b.HTTP
    ServiceResolution := applyOpt ServiceResolutionDoc.apply d.serviceResolution
        b.ServiceResolution }

/-- The keys of `defaults` set on a `Benchmark`. -/
def DefaultsDoc.apply (d : DefaultsDoc) (b : Benchmark) : Benchmark :=
  { C := d.concurrency.getD b.C, N := d.requests.getD b.N }

/-- The keys of `benchmarks` set on a `Benchmarks`; the entries are stored into
the two maps. -/
def BenchmarksDoc.apply (d : BenchmarksDoc) (b : Benchmarks) : Benchmarks :=
  { Defaults := applyOpt DefaultsDoc.apply d.defaults b.Defaults
    Services := storeInto EntryDoc.toConfig d.services b.Services
    Containers := storeInto EntryDoc.toConfig d.containers b.Containers }

/-- The document decoded into a store. -/
def BenchDoc.apply (d : BenchDoc) (s : Bench) : Bench :=
  match d.benchmarks with
  | none => s
  | some b => { Benchmarks := some (b.apply (s.Benchmarks.getD Benchmarks.zero)) }

/-! ### Valid documents -/

/-- An integer of a document, if present, is a Go `int`. -/
def fitsInt : Option Int → Prop
  | none => True
  | some i => minInt ≤ i ∧ i ≤ maxInt

instance fitsInt.decidable (v : Option Int) : Decidable (fitsInt v) :=
  match v with
  | none => isTrue trivial
  | some i => inferInstanceAs (Decidable (minInt ≤ i ∧ i ≤ maxInt))

/-- The keys of a mapping of the document are distinct, as YAML requires. -/
def keysDistinct {α : Type} (l : Option (List (String × α))) : Prop :=
  ((l.getD []).map Prod.fst).Nodup

instance keysDistinct.decidable {α : Type} (l : Option (List (String × α))) :
    Decidable (keysDistinct l) :=
  inferInstanceAs (Decidable ((l.getD []).map Prod.fst).Nodup)

/-- A valid entry: its integers are Go `int`s and its header keys distinct. -/
def EntryDoc.Valid (d : EntryDoc) : Prop :=
  fitsInt d.concurrency ∧ fitsInt d.requests ∧ keysDistinct (d.http.bind fun h => h.headers)

instance EntryDoc.Valid.decidable (d : EntryDoc) : Decidable d.Valid :=
  inferInstanceAs (Decidable (_ ∧ _ ∧ _))

/-- A valid value of `benchmarks`. -/
def BenchmarksDoc.Valid (d : BenchmarksDoc) : Prop :=
  fitsInt (d.defaults.bind fun b => b.concurrency) ∧
  fitsInt (d.defaults.bind fun b => b.requests) ∧
  keysDistinct d.services ∧ keysDistinct d.containers ∧
  (∀ kv ∈ d.services.getD [], kv.2.Valid) ∧ (∀ kv ∈ d.containers.getD [], kv.2.Valid)

instance BenchmarksDoc.Valid.decidable (d : BenchmarksDoc) : Decidable d.Valid :=
  inferInstanceAs (Decidable (_ ∧ _ ∧ _ ∧ _ ∧ _ ∧ _))

/-- A valid document of the schema. -/
def BenchDoc.Valid (d : BenchDoc) : Prop :=
  match d.benchmarks with
  | none => True
  | some b => b.Valid

instance BenchDoc.Valid.decidable (d : BenchDoc) : Decidable d.Valid :=
  match h : d.benchmarks with
  | none => isTrue (by unfold BenchDoc.Valid; rw [h]; trivial)
  | some b => decidable_of_iff b.Valid (by unfold BenchDoc.Valid; rw [h])

/-! ### The entries of a document

For a document of any shape: the nodes that stand under a key, and the pairs
of name and node that stand under `benchmarks`, `services` (or `containers`). -/

/-- The key that a key node gives (`d.unmarshal(ni, name)` in the loops of the
decoder), if it gives one. -/
def Node.key (n : Node) : Option String :=
  if (unmarshalString n "").good then some (unmarshalString n "").out else none

/-- The key and value nodes of a mapping; a scalar or a sequence has none. -/
def Node.pairs : Node → List (Node × Node)
  | .mapping children => children
  | _ => []

/-- The value nodes that stand under the key `name` in a node. -/
def Node.valuesOf (name : String) (n : Node) : List Node :=
  (n.pairs.filter fun kv => kv.1.key = some name).map Prod.snd

/-- The node has no key `name`. -/
def Node.omits (name : String) (n : Node) : Prop :=
  n.valuesOf name = []

/-- The entries of the document under `benchmarks` and then under `sect`
(`services` or `containers`): each name node with its entry node. -/
def entryNodes (sect : String) (root : Node) : List (Node × Node) :=
  ((root.valuesOf "benchmarks").flatMap fun b => b.valuesOf sect).flatMap Node.pairs

/-- An entry `e` loaded from the entry node `v` has the zero value where `v`
omits the key, and is then not the default bench spec. -/
def ZeroWhereOmitted (v : Node) (e : BenchConfig) : Prop :=
  (v.omits "concurrency" → e.C = 0) ∧
  (v.omits "requests" → e.N = 0) ∧
  ((∀ h ∈ v.valuesOf "http", h.omits "method") → e.HTTP.Method = "") ∧
  (v.omits "serviceResolution" → e.ServiceResolution.Mode = "") ∧
  (v.omits "concurrency" ∨ v.omits "requests" ∨ (∀ h ∈ v.valuesOf "http", h.omits "method") →
    e ≠ DefaultBenchSpec)

/-! ### Reading a document by its keys

What a document says about each field, whatever the order of its keys: the
value under the key of the field, read as the type of the field.  A key that is
absent gives the zero value in an entry and the default of the constructor in
`defaults`; null reads as the zero value. -/

/-- The value under the key `name` (the first one, should the key occur more
than once). -/
def Node.find (name : String) (n : Node) : Option Node :=
  (n.valuesOf name).head?

/-- The string that a scalar stands for: its text, and the empty string for
null. -/
def Node.asText : Node → String
  | .scalar _ .null => ""
  | .scalar value _ => value
  | _ => ""

/-- The integer that an integer scalar stands for; zero for null. -/
def Node.asInt : Node → Int
  | .scalar _ (.int i) => i
  | _ => 0

/-- The boolean that a boolean scalar stands for; false for null. -/
def Node.asBool : Node → Bool
  | .scalar _ (.bool b) => b
  | _ => false

/-- The strings of a sequence of scalars, in the order of the document. -/
def Node.asStrings : Node → List String
  | .sequence items => items.map Node.asText
  | _ => []

/-- The headers of a mapping: each key with the strings of its sequence. -/
def Node.asHeaders : Node → GoMap (List String)
  | .mapping children => some (children.map fun kv => (kv.1.asText, kv.2.asStrings))
  | _ => none

/-- The `Auth` that the value of `auth` describes. -/
def Node.asAuth (n : Node) : Auth :=
  { User := ((n.find "user").map Node.asText).getD ""
    Password := ((n.find "password").map Node.asText).getD "" }

/-- The `HTTP` that the value of `http` describes. -/
def Node.asHTTP (n : Node) : HTTP :=
  { Method := ((n.find "method").map Node.asText).getD ""
    Host := ((n.find "host").map Node.asText).getD ""
    Path := ((n.find "path").map Node.asText).getD ""
    HTTPS := ((n.find "https").map Node.asBool).getD false
    HTTP2 := ((n.find "http2").map Node.asBool).getD false
    Body := ((n.find "body").map Node.asText).getD ""
    Headers := ((n.find "headers").map Node.asHeaders).getD none }

/-- The `ServiceResolution` that the value of `serviceResolution` describes. -/
def Node.asServiceResolution (n : Node) : ServiceResolution :=
  { Mode := ((n.find "mode").map Node.asText).getD "" }

/-- The `BenchConfig` that an entry describes.  `Name` is read from the key
`name`, which the decoder knows although the schema does not list it. -/
def Node.asEntry (n : Node) : BenchConfig :=
  { Name := ((n.find "name").map Node.asText).getD ""
    C := ((n.find "concurrency").map Node.asInt).getD 0
    N := ((n.find "requests").map Node.asInt).getD 0
    Auth := ((n.find "auth").map Node.asAuth).getD Auth.zero
    HTTP := ((n.find "http").map Node.asHTTP).getD HTTP.zero
    ServiceResolution :=
      ((n.find "serviceResolution").map Node.asServiceResolution).getD ServiceResolution.zero }

/-- The entries of `services` or `containers`, in the order of the document. -/
def Node.asEntries : Node → GoMap BenchConfig
  | .mapping children => some (children.map fun kv => (kv.1.asText, kv.2.asEntry))
  | _ => none

/-- The `Benchmark` that the value of `defaults` describes: a key that is absent
leaves the default of the constructor. -/
def Node.asDefaults : Node → Benchmark
  | .scalar _ .null => Benchmark.zero
  | n =>
    { C := ((n.find "concurrency").map Node.asInt).getD DefaultC
      N := ((n.find "requests").map Node.asInt).getD DefaultN }

/-- The `Benchmarks` that the value of `benchmarks` describes. -/
def Node.asBenchmarks (n : Node) : Benchmarks :=
  { Defaults := ((n.find "defaults").map Node.asDefaults).getD newBenchmark
    Services := ((n.find "services").map Node.asEntries).getD none
    Containers := ((n.find "containers").map Node.asEntries).getD none }

/-- The store that a document describes. -/
def storeOf (root : Node) : Bench :=
  { Benchmarks := some (((root.find "benchmarks").map Node.asBenchmarks).getD newBenchmarks) }

/-! ### Documents that match the schema

A document matches the schema when it is a mapping whose `benchmarks`, if
present, is a mapping, and every key of the schema that is present holds a
value of its type: an integer within the range of a Go `int`, a boolean, a
scalar for a string, a sequence of scalars for the values of a header, a
mapping for every other key; below `benchmarks` null may stand for any of
them.  The keys of a mapping are scalars and distinct, as YAML requires.  Keys
that the schema does not know may be present, with any value. -/

/-- The keys of a mapping are scalars and no key occurs twice. -/
def wellKeyed (children : List (Node × Node)) : Bool :=
  children.all (fun kv => kv.1.key.isSome) &&
    decide (children.map fun kv => kv.1.key).Nodup

/-- Every value under the key `name` satisfies `p`. -/
def Node.allUnder (name : String) (p : Node → Bool) (n : Node) : Bool :=
  (n.valuesOf name).all p

/-- A null scalar. -/
def Node.isNull : Node → Bool
  | .scalar _ .null => true
  | _ => false

/-- A scalar: the value of a string field. -/
def Node.isScalar : Node → Bool
  | .scalar _ _ => true
  | _ => false

/-- An integer within the range of a Go `int`, or null. -/
def Node.isInt : Node → Bool
  | .scalar _ .null => true
  | .scalar _ (.int i) => decide (minInt ≤ i ∧ i ≤ maxInt)
  | _ => false

/-- A boolean, or null. -/
def Node.isBool : Node → Bool
  | .scalar _ .null => true
  | .scalar _ (.bool _) => true
  | _ => false

/-- A sequence of scalars, or null. -/
def Node.isStrings : Node → Bool
  | .scalar _ .null => true
  | .sequence items => items.all Node.isScalar
  | _ => false

/-- A mapping of header names to sequences of scalars, or null. -/
def Node.isHeaders : Node → Bool
  | .scalar _ .null => true
  | .mapping children => wellKeyed children && children.all fun kv => kv.2.isStrings
  | _ => false

/-- A mapping with distinct scalar keys whose known keys satisfy `fields`, or
null. -/
def Node.isRecord (fields : Node → Bool) : Node → Bool
  | .scalar _ .null => true
  | .mapping children => wellKeyed children && fields (.mapping children)
  | _ => false

/-- A value of `auth`. -/
def Node.isAuth (n : Node) : Bool :=
  n.isRecord fun m => m.allUnder "user" Node.isScalar && m.allUnder "password" Node.isScalar

/-- A value of `http`. -/
def Node.isHTTP (n : Node) : Bool :=
  n.isRecord fun m =>
    m.allUnder "method" Node.isScalar && m.allUnder "host" Node.isScalar &&
    m.allUnder "path" Node.isScalar && m.allUnder "https" Node.isBool &&
    m.allUnder "http2" Node.isBool && m.allUnder "body" Node.isScalar &&
    m.allUnder "headers" Node.isHeaders

/-- A value of `serviceResolution`. -/
def Node.isServiceResolution (n : Node) : Bool :=
  n.isRecord fun m => m.allUnder "mode" Node.isScalar

/-- An entry of `services` or `containers`. -/
def Node.isEntry (n : Node) : Bool :=
  n.isRecord fun m =>
    m.allUnder "name" Node.isScalar && m.allUnder "concurrency" Node.isInt &&
    m.allUnder "requests" Node.isInt && m.allUnder "auth" Node.isAuth &&
    m.allUnder "http" Node.isHTTP &&
    m.allUnder "serviceResolution" Node.isServiceResolution

/-- A value of `services` or `containers`. -/
def Node.isEntries : Node → Bool
  | .scalar _ .null => true
  | .mapping children => wellKeyed children && children.all fun kv => kv.2.isEntry
  | _ => false

/-- A value of `defaults`. -/
def Node.isDefaults (n : Node) : Bool :=
  n.isRecord fun m => m.allUnder "concurrency" Node.isInt && m.allUnder "requests" Node.isInt

/-- A value of `benchmarks`: a mapping. -/
def Node.isBenchmarks : Node → Bool
  | .mapping children =>
    wellKeyed children && (Node.mapping children).allUnder "defaults" Node.isDefaults &&
    (Node.mapping children).allUnder "services" Node.isEntries &&
    (Node.mapping children).allUnder "containers" Node.isEntries
  | _ => false

/-- The document matches the schema. -/
def matchesSchema : Node → Bool
  | .mapping children =>
    wellKeyed children && (Node.mapping children).allUnder "benchmarks" Node.isBenchmarks
  | _ => false

/-- Neither the document nor a `benchmarks`, `services` or `containers` of it is
null. -/
def noNullSection (root : Node) : Bool :=
  !root.isNull &&
    (root.valuesOf "benchmarks").all fun b =>
      !b.isNull && (b.valuesOf "services").all (fun v => !v.isNull) &&
        (b.valuesOf "containers").all (fun v => !v.isNull)

/-! ### Properties of the decoder used in the proofs -/

/-- A table of field decoders whose type errors do not depend on the struct. -/
def FieldErrsStable {T : Type} (field : String → Option (Node → T → T × Nat)) : Prop :=
  ∀ name dec, field name = some dec → ∀ n a b, (dec n a).2 = (dec n b).2

/-- The entries of the map `m` are decoded from entry nodes of `src`. -/
def FromNodes (src : List (Node × Node)) (m : GoMap BenchConfig) : Prop :=
  ∀ k e, (k, e) ∈ m.getD [] →
    ∃ kv ∈ src, kv.1.key = some k ∧ e = (unmarshalBenchConfig kv.2 BenchConfig.zero).out

/-- A mapping whose keys are scalars and distinct. -/
def Node.wellKeyedMapping : Node → Bool
  | .mapping children => wellKeyed children
  | _ => false

/-- The maps of `x` hold the entries of `y` and, besides them, the entries of
`a` whose key `y` does not have. -/
def Merged (a x y : Benchmarks) : Prop :=
  ∀ k, x.Services.get k = ((y.Services.get k).orElse fun _ => a.Services.get k) ∧
    x.Containers.get k = ((y.Containers.get k).orElse fun _ => a.Containers.get k)

/-- Both pointers are set, to values that are `Merged`. -/
def PtrMerged (a : Benchmarks) (ox oy : Option Benchmarks) : Prop :=
  ∃ x y, ox = some x ∧ oy = some y ∧ Merged a x y

/-- Both maps of `b` hold entries decoded from the entry nodes of the document. -/
def EntriesFrom (root : Node) (b : Benchmarks) : Prop :=
  FromNodes (entryNodes "services" root) b.Services ∧
  FromNodes (entryNodes "containers" root) b.Containers

/-! ## Example documents and file systems -/

/-- The document `benchmarks: {}`. -/
def emptyBenchmarksDoc : Node :=
  .mapping [(str "benchmarks", .mapping [])]

/-- An entry with every key of the schema. -/
def fullEntry : EntryDoc :=
  { concurrency := some 2
    requests := some 1000
    auth := some { user := some "jean", password := some "blee" }
    http := some
      { method := some "POST", host := some "10.10.10.10", path := some "/bozo"
        https := some true, http2 := some false, body := some "data"
        headers := some [("Accept", ["text/html", "application/json"]), ("X-Id", ["7"])] }
    serviceResolution := some { mode := some "ClusterIP" } }

/-- An entry that gives only its path. -/
def bareEntry : EntryDoc :=
  { concurrency := none, requests := none, auth := none
    http := some
      { method := none, host := none, path := some "/", https := none, http2 := none
        body := none, headers := none }
    serviceResolution := none }

/-- First file: two services and a container. -/
def docA : BenchDoc :=
  { benchmarks := some
      { defaults := some { concurrency := some 2, requests := some 1000 }
        services := some [("default/nginx", fullEntry), ("blee/fred", bareEntry)]
        containers := some [("c1", bareEntry)] } }

/-- Second file: one other service, no container. -/
def docB : BenchDoc :=
  { benchmarks := some
      { defaults := some { concurrency := some 20, requests := none }
        services := some [("default/zorg", bareEntry)]
        containers := none } }

/-- A document with its keys in another order than the schema, with keys the
schema does not know and with null values:
`extra: x`, then `benchmarks:` with `services:` (the entry `s1` giving
`requests: 50`, `comment: [a]`, `concurrency: 4`, `http:` with `path: /x`,
`method: ~` and `headers:` with `B: [2, 1]`, `A: []`, and the entry `s2: ~`),
`containers: ~` and `defaults:` with `requests: 10`. -/
def docC : Node :=
  .mapping
    [(str "extra", str "x"),
     (str "benchmarks", .mapping
       [(str "services", .mapping
          [(str "s1", .mapping
             [(str "requests", num 50),
              (str "comment", .sequence [str "a"]),
              (str "concurrency", num 4),
              (str "http", .mapping
                [(str "path", str "/x"),
                 (str "method", .scalar "~" .null),
                 (str "headers", .mapping
                   [(str "B", .sequence [num 2, num 1]), (str "A", .sequence [])])])]),
           (str "s2", .scalar "~" .null)]),
        (str "containers", .scalar "~" .null),
        (str "defaults", .mapping [(str "requests", num 10)])])]

/-- The scalar `-9223372036854775809`, one below the least `int`: it is no
`int64` and no `uint64`, so `resolve` reads it as a `float64`, which is
`-2^63`; that is not above `math.MaxInt64`, and `int64` of it is the least
`int`. -/
def belowMinInt : Node :=
  .scalar "-9223372036854775809" (.float (some minInt))

/-- The document `benchmarks:` with `services:` holding the entry `s1` with
`concurrency: -9223372036854775809`. -/
def docBelow : Node :=
  .mapping
    [(str "benchmarks", .mapping
       [(str "services", .mapping
          [(str "s1", .mapping [(str "concurrency", belowMinInt)])])])]

/-- A file system with the example files, a file that is not YAML, and no
other file. -/
def fsAB : FileSystem := fun path =>
  if path = "a.yml" then .ok (.document docA.toNode)
  else if path = "b.yml" then .ok (.document docB.toNode)
  else if path = "c.yml" then .ok (.document docC)
  else if path = "below.yml" then .ok (.document docBelow)
  else if path = "toast.yml" then .ok (.malformed "did not find expected node content")
  else .error ⟨"no such file or directory"⟩

/-! ## The type errors of a document do not depend on the store -/

theorem unmarshalString_errs (n : Node) (a b : String) :
    (unmarshalString n a).terrors = (unmarshalString n b).terrors ∧
    (unmarshalString n a).good = (unmarshalString n b).good := by
  cases n with
  | scalar v r => cases r <;> exact ⟨rfl, rfl⟩
  | mapping c => exact ⟨rfl, rfl⟩
  | sequence c => exact ⟨rfl, rfl⟩

theorem unmarshalInt_errs (n : Node) (a b : Int) :
    (unmarshalInt n a).terrors = (unmarshalInt n b).terrors ∧
    (unmarshalInt n a).good = (unmarshalInt n b).good := by
  cases n with
  | scalar v r =>
    cases r with
    | int i => by_cases h : minInt ≤ i ∧ i ≤ maxInt <;> simp [unmarshalInt, h]
    | float f => cases f <;> exact ⟨rfl, rfl⟩
    | null => exact ⟨rfl, rfl⟩
    | bool x => exact ⟨rfl, rfl⟩
    | str => exact ⟨rfl, rfl⟩
  | mapping c => exact ⟨rfl, rfl⟩
  | sequence c => exact ⟨rfl, rfl⟩

theorem unmarshalBool_errs (n : Node) (a b : Bool) :
    (unmarshalBool n a).terrors = (unmarshalBool n b).terrors ∧
    (unmarshalBool n a).good = (unmarshalBool n b).good := by
  cases n with
  | scalar v r => cases r <;> exact ⟨rfl, rfl⟩
  | mapping c => exact ⟨rfl, rfl⟩
  | sequence c => exact ⟨rfl, rfl⟩

theorem unmarshalStrings_errs (n : Node) (a b : List String) :
    (unmarshalStrings n a).terrors = (unmarshalStrings n b).terrors ∧
    (unmarshalStrings n a).good = (unmarshalStrings n b).good := by
  cases n with
  | scalar v r => cases r <;> exact ⟨rfl, rfl⟩
  | mapping c => exact ⟨rfl, rfl⟩
  | sequence c => exact ⟨rfl, rfl⟩

theorem mappingMap_errs {α : Type} (zero : α) (elem : Node → α → Decoded α)
    (children : List (Node × Node)) (a b : List (String × α)) :
    (mappingMap zero elem children a).2 = (mappingMap zero elem children b).2 := by
  induction children generalizing a b with
  | nil => rfl
  | cons kv rest ih =>
    obtain ⟨nk, nv⟩ := kv
    simp only [mappingMap]
    split
    · rw [ih _ (if (elem nv zero).good = true then
        setIndex (unmarshalString nk "").out (elem nv zero).out b else b)]
    · rw [ih a b]

theorem unmarshalMap_errs {α : Type} (zero : α) (elem : Node → α → Decoded α)
    (n : Node) (a b : GoMap α) :
    (unmarshalMap zero elem n a).terrors = (unmarshalMap zero elem n b).terrors ∧
    (unmarshalMap zero elem n a).good = (unmarshalMap zero elem n b).good := by
  cases n with
  | scalar v r => cases r <;> exact ⟨rfl, rfl⟩
  | mapping c => exact ⟨mappingMap_errs zero elem c _ _, rfl⟩
  | sequence c => exact ⟨rfl, rfl⟩

theorem mappingStruct_errs {T : Type} (field : String → Option (Node → T → T × Nat))
    (hf : FieldErrsStable field) (children : List (Node × Node)) (a b : T) :
    (mappingStruct field children a).2 = (mappingStruct field children b).2 := by
  induction children generalizing a b with
  | nil => rfl
  | cons kv rest ih =>
    obtain ⟨nk, nv⟩ := kv
    simp only [mappingStruct]
    split
    · cases hd : field (unmarshalString nk "").out with
      | none => exact ih a b
      | some dec =>
        simp only []
        rw [hf _ dec hd nv a b, ih (dec nv a).1 (dec nv b).1]
    · rw [ih a b]

theorem unmarshalStruct_errs {T : Type} (zero : T)
    (field : String → Option (Node → T → T × Nat)) (hf : FieldErrsStable field)
    (n : Node) (a b : T) :
    (unmarshalStruct zero field n a).terrors = (unmarshalStruct zero field n b).terrors ∧
    (unmarshalStruct zero field n a).good = (unmarshalStruct zero field n b).good := by
  cases n with
  | scalar v r => cases r <;> exact ⟨rfl, rfl⟩
  | mapping c => exact ⟨mappingStruct_errs field hf c a b, rfl⟩
  | sequence c => exact ⟨rfl, rfl⟩

theorem Auth_field_stable : FieldErrsStable Auth.field := by
  intro name dec h n a b
  unfold Auth.field at h
  split_ifs at h <;> cases h
  · exact (unmarshalString_errs n _ _).1
  · exact (unmarshalString_errs n _ _).1

theorem Benchmark_field_stable : FieldErrsStable Benchmark.field := by
  intro name dec h n a b
  unfold Benchmark.field at h
  split_ifs at h <;> cases h
  · exact (unmarshalInt_errs n _ _).1
  · exact (unmarshalInt_errs n _ _).1

theorem HTTP_field_stable : FieldErrsStable HTTP.field := by
  intro name dec h n a b
  unfold HTTP.field at h
  split_ifs at h <;> cases h
  · exact (unmarshalString_errs n _ _).1
  · exact (unmarshalString_errs n _ _).1
  · exact (unmarshalString_errs n _ _).1
  · exact (unmarshalBool_errs n _ _).1
  · exact (unmarshalBool_errs n _ _).1
  · exact (unmarshalString_errs n _ _).1
  · exact (unmarshalMap_errs _ _ n _ _).1

theorem ServiceResolution_field_stable : FieldErrsStable ServiceResolution.field := by
  intro name dec h n a b
  unfold ServiceResolution.field at h
  split_ifs at h
  cases h
  exact (unmarshalString_errs n _ _).1

theorem BenchConfig_field_stable : FieldErrsStable BenchConfig.field := by
  intro name dec h n a b
  unfold BenchConfig.field at h
  split_ifs at h <;> cases h
  · exact (unmarshalString_errs n _ _).1
  · exact (unmarshalInt_errs n _ _).1
  · exact (unmarshalInt_errs n _ _).1
  · exact (unmarshalStruct_errs _ _ Auth_field_stable n _ _).1
  · exact (unmarshalStruct_errs _ _ HTTP_field_stable n _ _).1
  · exact (unmarshalStruct_errs _ _ ServiceResolution_field_stable n _ _).1

theorem Benchmarks_field_stable : FieldErrsStable Benchmarks.field := by
  intro name dec h n a b
  unfold Benchmarks.field at h
  split_ifs at h <;> cases h
  · exact (unmarshalStruct_errs _ _ Benchmark_field_stable n _ _).1
  · exact (unmarshalMap_errs _ _ n _ _).1
  · exact (unmarshalMap_errs _ _ n _ _).1

theorem unmarshalBenchmarksPtr_errs (n : Node) (a b : Option Benchmarks) :
    (unmarshalBenchmarksPtr n a).terrors = (unmarshalBenchmarksPtr n b).terrors := by
  cases n with
  | scalar v r =>
    simp only [unmarshalBenchmarksPtr]
    split
    · split <;> rfl
    · exact (unmarshalStruct_errs _ _ Benchmarks_field_stable _ _ _).1
  | mapping c => exact mappingStruct_errs _ Benchmarks_field_stable c _ _
  | sequence c => rfl

theorem Bench_field_stable : FieldErrsStable Bench.field := by
  intro name dec h n a b
  unfold Bench.field at h
  split_ifs at h
  cases h
  exact unmarshalBenchmarksPtr_errs n _ _

theorem unmarshalRoot_errs (root : Node) (a b : Bench) :
    (unmarshalRoot root a).2 = (unmarshalRoot root b).2 := by
  cases root with
  | scalar v r =>
    simp only [unmarshalRoot]
    split
    · rfl
    · exact (unmarshalStruct_errs _ _ Bench_field_stable _ _ _).1
  | mapping c => exact mappingStruct_errs _ Bench_field_stable c a b
  | sequence c => rfl

theorem Unmarshal_err (f : Content) (a b : Bench) :
    (Unmarshal f a).2 = (Unmarshal f b).2 := by
  cases f with
  | malformed msg => rfl
  | empty => rfl
  | document root => simp only [Unmarshal, unmarshalRoot_errs root a b]

theorem load_err (fs : FileSystem) (path : String) (a b : Bench) :
    (load fs path a).2 = (load fs path b).2 := by
  unfold load
  cases fs path with
  | error e => rfl
  | ok f => exact Unmarshal_err f a b

/-! ## Decoding a document of the schema -/

theorem mappingStruct_append {T : Type} (field : String → Option (Node → T → T × Nat))
    (l₁ l₂ : List (Node × Node)) (out : T) :
    mappingStruct field (l₁ ++ l₂) out =
      ((mappingStruct field l₂ (mappingStruct field l₁ out).1).1,
        (mappingStruct field l₁ out).2 + (mappingStruct field l₂ (mappingStruct field l₁ out).1).2)
            := by
  induction l₁ generalizing out with
  | nil => simp [mappingStruct]
  | cons kv rest ih =>
    obtain ⟨nk, nv⟩ := kv
    simp only [List.cons_append, mappingStruct]
    split
    · cases field (unmarshalString nk "").out with
      | none => exact ih out
      | some dec => simp only [List.append_eq, ih, Nat.add_assoc]
    · simp only [List.append_eq, ih, Nat.add_assoc]

theorem mappingStruct_opt {T D : Type} (field : String → Option (Node → T → T × Nat))
    (key : String) (dec : Node → T → T × Nat) (hk : field key = some dec)
    (v : Option D) (f : D → Node) (out : T) :
    mappingStruct field (opt key v f) out =
      match v with
      | none => (out, 0)
      | some a => dec (f a) out := by
  cases v with
  | none => rfl
  | some a => simp [opt, mappingStruct, str, unmarshalString, hk]

theorem sequenceStrings_str (l : List String) : sequenceStrings (l.map str) = (l, 0) := by
  induction l with
  | nil => rfl
  | cons a rest ih => simp [sequenceStrings, ih, str, unmarshalString]

theorem mappingMap_headers (l : List (String × List String)) (m : List (String × List String)) :
    mappingMap [] unmarshalStrings (l.map fun kv => (str kv.1, stringsNode kv.2)) m =
      (storeAll (fun x => x) l m, 0) := by
  induction l generalizing m with
  | nil => rfl
  | cons kv rest ih =>
    obtain ⟨k, vs⟩ := kv
    simp [mappingMap, str, unmarshalString, stringsNode, unmarshalStrings, storeAll,
      sequenceStrings_str, ← ih]

theorem unmarshalAuth_toNode (d : AuthDoc) (a : Auth) :
    unmarshalStruct Auth.zero Auth.field d.toNode a = ⟨d.apply a, true, 0⟩ := by
  obtain ⟨u, p⟩ := d
  cases u <;> cases p <;> rfl

theorem unmarshalServiceResolution_toNode (d : ServiceResolutionDoc) (r : ServiceResolution) :
    unmarshalStruct ServiceResolution.zero ServiceResolution.field d.toNode r =
      ⟨d.apply r, true, 0⟩ := by
  obtain ⟨m⟩ := d
  cases m <;> rfl

theorem unmarshalInt_num (i : Int) (h : fitsInt (some i)) (out : Int) :
    unmarshalInt (num i) out = ⟨i, true, 0⟩ := by
  have h' : minInt ≤ i ∧ i ≤ maxInt := h
  simp [unmarshalInt, num, h']

theorem unmarshalDefaults_toNode (d : DefaultsDoc) (hc : fitsInt d.concurrency)
    (hn : fitsInt d.requests) (b : Benchmark) :
    unmarshalStruct Benchmark.zero Benchmark.field d.toNode b = ⟨d.apply b, true, 0⟩ := by
  obtain ⟨c, n⟩ := d
  cases c <;> cases n <;>
    simp [DefaultsDoc.toNode, unmarshalStruct, opt, mappingStruct, str, unmarshalString,
      Benchmark.field, unmarshalInt_num, DefaultsDoc.apply, hc, hn]

theorem HTTP.seg_method (v : Option String) (h : HTTP) :
    mappingStruct HTTP.field (opt "method" v str) h = ({ h with Method := v.getD h.Method }, 0) :=
        by
  cases v <;> rfl

theorem HTTP.seg_host (v : Option String) (h : HTTP) :
    mappingStruct HTTP.field (opt "host" v str) h = ({ h with Host := v.getD h.Host }, 0) := by
  cases v <;> rfl

theorem HTTP.seg_path (v : Option String) (h : HTTP) :
    mappingStruct HTTP.field (opt "path" v str) h = ({ h with Path := v.getD h.Path }, 0) := by
  cases v <;> rfl

theorem HTTP.seg_https (v : Option Bool) (h : HTTP) :
    mappingStruct HTTP.field (opt "https" v boolNode) h =
      ({ h with HTTPS := v.getD h.HTTPS }, 0) := by
  cases v <;> rfl

theorem HTTP.seg_http2 (v : Option Bool) (h : HTTP) :
    mappingStruct HTTP.field (opt "http2" v boolNode) h =
      ({ h with HTTP2 := v.getD h.HTTP2 }, 0) := by
  cases v <;> rfl

theorem HTTP.seg_body (v : Option String) (h : HTTP) :
    mappingStruct HTTP.field (opt "body" v str) h = ({ h with Body := v.getD h.Body }, 0) := by
  cases v <;> rfl

theorem HTTP.seg_headers (v : Option (List (String × List String))) (h : HTTP) :
    mappingStruct HTTP.field (opt "headers" v headersNode) h =
      ({ h with Headers := storeInto (fun x => x) v h.Headers }, 0) := by
  cases v with
  | none => rfl
  | some l =>
    have hm := mappingMap_headers l (h.Headers.getD [])
    simp only [str] at hm
    simp [opt, mappingStruct, str, unmarshalString, HTTP.field, unmarshalHeader, unmarshalMap,
      headersNode, storeInto, hm]

theorem unmarshalHTTP_toNode (d : HTTPDoc) (h : HTTP) :
    unmarshalStruct HTTP.zero HTTP.field d.toNode h = ⟨d.apply h, true, 0⟩ := by
  simp only [HTTPDoc.toNode, unmarshalStruct, mappingStruct_append, HTTP.seg_method,
    HTTP.seg_host, HTTP.seg_path, HTTP.seg_https, HTTP.seg_http2, HTTP.seg_body,
    HTTP.seg_headers]
  rfl

theorem BenchConfig.seg_concurrency (v : Option Int) (hv : fitsInt v) (b : BenchConfig) :
    mappingStruct BenchConfig.field (opt "concurrency" v num) b =
      ({ b with C := v.getD b.C }, 0) := by
  cases v with
  | none => rfl
  | some i =>
    simp [opt, mappingStruct, str, unmarshalString, BenchConfig.field, unmarshalInt_num i hv]

theorem BenchConfig.seg_requests (v : Option Int) (hv : fitsInt v) (b : BenchConfig) :
    mappingStruct BenchConfig.field (opt "requests" v num) b =
      ({ b with N := v.getD b.N }, 0) := by
  cases v with
  | none => rfl
  | some i =>
    simp [opt, mappingStruct, str, unmarshalString, BenchConfig.field, unmarshalInt_num i hv]

theorem BenchConfig.seg_auth (v : Option AuthDoc) (b : BenchConfig) :
    mappingStruct BenchConfig.field (opt "auth" v AuthDoc.toNode) b =
      ({ b with Auth := applyOpt AuthDoc.apply v b.Auth }, 0) := by
  cases v with
  | none => rfl
  | some d =>
    simp [opt, mappingStruct, str, unmarshalString, BenchConfig.field, unmarshalAuth_toNode,
      applyOpt]

theorem BenchConfig.seg_http (v : Option HTTPDoc) (b : BenchConfig) :
    mappingStruct BenchConfig.field (opt "http" v HTTPDoc.toNode) b =
      ({ b with HTTP := applyOpt HTTPDoc.apply v b.HTTP }, 0) := by
  cases v with
  | none => rfl
  | some d =>
    simp [opt, mappingStruct, str, unmarshalString, BenchConfig.field, unmarshalHTTP_toNode,
      applyOpt]

theorem BenchConfig.seg_serviceResolution (v : Option ServiceResolutionDoc) (b : BenchConfig) :
    mappingStruct BenchConfig.field (opt "serviceResolution" v ServiceResolutionDoc.toNode) b =
      ({ b with ServiceResolution :=
          applyOpt ServiceResolutionDoc.apply v b.ServiceResolution }, 0) := by
  cases v with
  | none => rfl
  | some d =>
    simp [opt, mappingStruct, str, unmarshalString, BenchConfig.field,
      unmarshalServiceResolution_toNode, applyOpt]

theorem unmarshalBenchConfig_toNode (d : EntryDoc) (hc : fitsInt d.concurrency)
    (hn : fitsInt d.requests) (b : BenchConfig) :
    unmarshalBenchConfig d.toNode b = ⟨d.apply b, true, 0⟩ := by
  simp only [unmarshalBenchConfig, EntryDoc.toNode, unmarshalStruct, mappingStruct_append,
    BenchConfig.seg_concurrency _ hc, BenchConfig.seg_requests _ hn, BenchConfig.seg_auth,
    BenchConfig.seg_http, BenchConfig.seg_serviceResolution]
  rfl

/-! ### Storing entries into a map -/

theorem lookup_setIndex {α : Type} (k k' : String) (v : α) (m : List (String × α)) :
    (setIndex k v m).lookup k' = if k' = k then some v else m.lookup k' := by
  induction m with
  | nil =>
    by_cases h : k' = k
    · simp [setIndex, List.lookup, h]
    · have hb : (k' == k) = false := by simpa using h
      simp [setIndex, List.lookup, h, hb]
  | cons kv rest ih =>
    obtain ⟨k₀, v₀⟩ := kv
    by_cases h₀ : k₀ = k
    · subst h₀
      by_cases h : k' = k₀
      · simp [setIndex, List.lookup, h]
      · have hb : (k' == k₀) = false := by simpa using h
        simp [setIndex, List.lookup, h, hb]
    · by_cases h₁ : k' = k₀
      · subst h₁
        simp [setIndex, List.lookup, h₀]
      · have hb : (k' == k₀) = false := by simpa using h₁
        simp [setIndex, List.lookup, h₀, hb, ih]

theorem setIndex_new {α : Type} (k : String) (v : α) (m : List (String × α))
    (h : k ∉ m.map Prod.fst) : setIndex k v m = m ++ [(k, v)] := by
  induction m with
  | nil => rfl
  | cons kv rest ih =>
    obtain ⟨k₀, v₀⟩ := kv
    simp only [List.map_cons, List.mem_cons, not_or] at h
    have h₀ : ¬ k₀ = k := fun e => h.1 e.symm
    simp [setIndex, h₀, ih h.2]

theorem storeAll_new {α β : Type} (f : α → β) (l : List (String × α)) (m : List (String × β))
    (hl : (l.map Prod.fst).Nodup) (hm : ∀ k ∈ l.map Prod.fst, k ∉ m.map Prod.fst) :
    storeAll f l m = m ++ l.map fun kv => (kv.1, f kv.2) := by
  induction l generalizing m with
  | nil => simp [storeAll]
  | cons kv rest ih =>
    obtain ⟨k, a⟩ := kv
    simp only [List.map_cons, List.nodup_cons] at hl
    have hk : k ∉ m.map Prod.fst := hm k (by simp)
    simp only [storeAll, setIndex_new k (f a) m hk]
    rw [ih (m ++ [(k, f a)]) hl.2]
    · simp
    · intro k' hk' hmem
      simp only [List.map_append, List.map_cons, List.map_nil, List.mem_append,
        List.mem_singleton] at hmem
      rcases hmem with hmem | hmem
      · exact hm k' (by simp [List.mem_map] at hk' ⊢; exact Or.inr hk') hmem
      · subst hmem
        exact hl.1 hk'

theorem storeInto_nil {α β : Type} (f : α → β) (v : Option (List (String × α)))
    (hv : keysDistinct v) :
    storeInto f v none = v.map fun l => l.map fun kv => (kv.1, f kv.2) := by
  cases v with
  | none => rfl
  | some l =>
    have hl : (l.map Prod.fst).Nodup := hv
    simp [storeInto, storeAll_new f l [] hl]

theorem storeInto_id_nil {α : Type} (v : Option (List (String × α))) (hv : keysDistinct v) :
    storeInto (fun x => x) v none = v := by
  rw [storeInto_nil _ v hv]
  cases v <;> simp

theorem EntryDoc.apply_zero (d : EntryDoc) (hh : keysDistinct (d.http.bind fun h => h.headers)) :
    d.apply BenchConfig.zero = d.toConfig := by
  obtain ⟨c, n, a, h, r⟩ := d
  cases h with
  | none =>
    cases a <;> cases r <;> rfl
  | some h =>
    have hh' : keysDistinct h.headers := hh
    have hs : storeInto (fun x => x) h.headers none = h.headers := storeInto_id_nil _ hh'
    cases a <;> cases r <;>
      simp [EntryDoc.apply, EntryDoc.toConfig, applyOpt, BenchConfig.zero, AuthDoc.apply,
        HTTPDoc.apply, ServiceResolutionDoc.apply, Auth.zero, HTTP.zero, ServiceResolution.zero,
        hs]

theorem mappingMap_entries (l : List (String × EntryDoc)) (hl : ∀ kv ∈ l, kv.2.Valid)
    (m : List (String × BenchConfig)) :
    mappingMap BenchConfig.zero unmarshalBenchConfig (l.map fun kv => (str kv.1, kv.2.toNode)) m =
      (storeAll EntryDoc.toConfig l m, 0) := by
  induction l generalizing m with
  | nil => rfl
  | cons kv rest ih =>
    obtain ⟨k, d⟩ := kv
    have hd : d.Valid := hl (k, d) (by simp)
    have hrest : ∀ kv ∈ rest, kv.2.Valid := fun kv hkv => hl kv (by simp [hkv])
    have he : unmarshalBenchConfig d.toNode BenchConfig.zero = ⟨d.toConfig, true, 0⟩ := by
      rw [unmarshalBenchConfig_toNode d hd.1 hd.2.1, EntryDoc.apply_zero d hd.2.2]
    have hk : unmarshalString (str k) "" = ⟨k, true, 0⟩ := rfl
    simp only [List.map_cons, mappingMap, storeAll, hk, he, if_true, ih hrest]

theorem Benchmarks.seg_defaults (v : Option DefaultsDoc)
    (hc : fitsInt (v.bind fun b => b.concurrency)) (hn : fitsInt (v.bind fun b => b.requests))
    (b : Benchmarks) :
    mappingStruct Benchmarks.field (opt "defaults" v DefaultsDoc.toNode) b =
      ({ b with Defaults := applyOpt DefaultsDoc.apply v b.Defaults }, 0) := by
  cases v with
  | none => rfl
  | some d =>
    simp [opt, mappingStruct, str, unmarshalString, Benchmarks.field,
      unmarshalDefaults_toNode d hc hn, applyOpt]

theorem Benchmarks.seg_services (v : Option (List (String × EntryDoc)))
    (hv : ∀ kv ∈ v.getD [], kv.2.Valid) (b : Benchmarks) :
    mappingStruct Benchmarks.field (opt "services" v entriesNode) b =
      ({ b with Services := storeInto EntryDoc.toConfig v b.Services }, 0) := by
  cases v with
  | none => rfl
  | some l =>
    have hm := mappingMap_entries l hv (b.Services.getD [])
    simp only [str] at hm
    simp [opt, mappingStruct, str, unmarshalString, Benchmarks.field, unmarshalMap,
      entriesNode, storeInto, hm]

theorem Benchmarks.seg_containers (v : Option (List (String × EntryDoc)))
    (hv : ∀ kv ∈ v.getD [], kv.2.Valid) (b : Benchmarks) :
    mappingStruct Benchmarks.field (opt "containers" v entriesNode) b =
      ({ b with Containers := storeInto EntryDoc.toConfig v b.Containers }, 0) := by
  cases v with
  | none => rfl
  | some l =>
    have hm := mappingMap_entries l hv (b.Containers.getD [])
    simp only [str] at hm
    simp [opt, mappingStruct, str, unmarshalString, Benchmarks.field, unmarshalMap,
      entriesNode, storeInto, hm]

theorem unmarshalBenchmarks_toNode (d : BenchmarksDoc) (hv : d.Valid) (b : Benchmarks) :
    unmarshalStruct Benchmarks.zero Benchmarks.field d.toNode b = ⟨d.apply b, true, 0⟩ := by
  obtain ⟨hc, hn, -, -, hs, hk⟩ := hv
  simp only [BenchmarksDoc.toNode, unmarshalStruct, mappingStruct_append,
    Benchmarks.seg_defaults _ hc hn, Benchmarks.seg_services _ hs,
    Benchmarks.seg_containers _ hk]
  rfl

theorem unmarshalBenchmarksPtr_toNode (b : BenchmarksDoc) (hb : b.Valid)
    (out : Option Benchmarks) :
    unmarshalBenchmarksPtr b.toNode out =
      ⟨some (b.apply (out.getD Benchmarks.zero)), true, 0⟩ := by
  have hu := unmarshalBenchmarks_toNode b hb (out.getD Benchmarks.zero)
  simp only [BenchmarksDoc.toNode] at hu
  simp only [BenchmarksDoc.toNode, unmarshalBenchmarksPtr, hu]

theorem unmarshalRoot_toNode (d : BenchDoc) (hv : d.Valid) (s : Bench) :
    unmarshalRoot d.toNode s = (d.apply s, 0) := by
  obtain ⟨v⟩ := d
  cases v with
  | none => rfl
  | some b =>
    have hb : b.Valid := hv
    show mappingStruct Bench.field (opt "benchmarks" (some b) BenchmarksDoc.toNode) s = _
    rw [mappingStruct_opt Bench.field "benchmarks" _ rfl]
    simp only [unmarshalBenchmarksPtr_toNode b hb, BenchDoc.apply]

theorem load_toNode (fs : FileSystem) (path : String) (d : BenchDoc) (hv : d.Valid)
    (hf : fs path = .ok (.document d.toNode)) (s : Bench) :
    load fs path s = (d.apply s, none) := by
  simp [load, hf, Unmarshal, unmarshalRoot_toNode d hv]

/-! ## Where the entries of the store come from -/

theorem mappingStruct_invariant {T : Type} (field : String → Option (Node → T → T × Nat))
    (P : T → Prop) (children : List (Node × Node))
    (hstep : ∀ kv ∈ children, ∀ name dec, kv.1.key = some name → field name = some dec →
      ∀ t, P t → P (dec kv.2 t).1)
    (t : T) (ht : P t) : P (mappingStruct field children t).1 := by
  induction children generalizing t with
  | nil => exact ht
  | cons kv rest ih =>
    obtain ⟨nk, nv⟩ := kv
    have hrest : ∀ kv ∈ rest, ∀ name dec, kv.1.key = some name → field name = some dec →
        ∀ t, P t → P (dec kv.2 t).1 :=
      fun kv hkv => hstep kv (List.mem_cons_of_mem _ hkv)
    simp only [mappingStruct]
    split
    · rename_i hg
      cases hd : field (unmarshalString nk "").out with
      | none => exact ih hrest t ht
      | some dec =>
        have hkey : nk.key = some (unmarshalString nk "").out := by simp [Node.key, hg]
        exact ih hrest _ (hstep (nk, nv) (List.mem_cons_self _ _) _ dec hkey hd t ht)
    · exact ih hrest t ht

theorem omits_iff (name : String) (n : Node) :
    n.omits name ↔ ∀ kv ∈ n.pairs, kv.1.key ≠ some name := by
  simp [Node.omits, Node.valuesOf, List.filter_eq_nil_iff]

theorem mem_valuesOf (name : String) (n : Node) (kv : Node × Node) (hkv : kv ∈ n.pairs)
    (hk : kv.1.key = some name) : kv.2 ∈ n.valuesOf name := by
  simp only [Node.valuesOf, List.mem_map, List.mem_filter]
  exact ⟨kv, ⟨hkv, by simp [hk]⟩, rfl⟩

theorem unmarshalStruct_invariant {T : Type} (zero : T)
    (field : String → Option (Node → T → T × Nat)) (P : T → Prop) (hz : P zero) (n : Node)
    (hstep : ∀ kv ∈ n.pairs, ∀ name dec, kv.1.key = some name → field name = some dec →
      ∀ t, P t → P (dec kv.2 t).1)
    (t : T) (ht : P t) : P (unmarshalStruct zero field n t).out := by
  cases n with
  | scalar v r => cases r <;> first | exact hz | exact ht
  | mapping c => exact mappingStruct_invariant field P c hstep t ht
  | sequence c => exact ht

theorem BenchConfig.field_C (name : String) (dec : Node → BenchConfig → BenchConfig × Nat)
    (h : BenchConfig.field name = some dec) (hne : name ≠ "concurrency") (n : Node)
    (t : BenchConfig) : (dec n t).1.C = t.C := by
  unfold BenchConfig.field at h
  split_ifs at h <;> cases h <;> rfl

theorem BenchConfig.field_N (name : String) (dec : Node → BenchConfig → BenchConfig × Nat)
    (h : BenchConfig.field name = some dec) (hne : name ≠ "requests") (n : Node)
    (t : BenchConfig) : (dec n t).1.N = t.N := by
  unfold BenchConfig.field at h
  split_ifs at h <;> cases h <;> rfl

theorem BenchConfig.field_HTTP (name : String) (dec : Node → BenchConfig → BenchConfig × Nat)
    (h : BenchConfig.field name = some dec) (hne : name ≠ "http") (n : Node)
    (t : BenchConfig) : (dec n t).1.HTTP = t.HTTP := by
  unfold BenchConfig.field at h
  split_ifs at h <;> cases h <;> rfl

theorem BenchConfig.field_ServiceResolution (name : String)
    (dec : Node → BenchConfig → BenchConfig × Nat)
    (h : BenchConfig.field name = some dec) (hne : name ≠ "serviceResolution") (n : Node)
    (t : BenchConfig) : (dec n t).1.ServiceResolution = t.ServiceResolution := by
  unfold BenchConfig.field at h
  split_ifs at h <;> cases h <;> rfl

theorem HTTP.field_Method (name : String) (dec : Node → HTTP → HTTP × Nat)
    (h : HTTP.field name = some dec) (hne : name ≠ "method") (n : Node)
    (t : HTTP) : (dec n t).1.Method = t.Method := by
  unfold HTTP.field at h
  split_ifs at h <;> cases h <;> first | rfl | contradiction

theorem unmarshalHTTP_Method (n : Node) (ho : n.omits "method") (t : HTTP)
    (ht : t.Method = "") : (unmarshalStruct HTTP.zero HTTP.field n t).out.Method = "" := by
  refine unmarshalStruct_invariant HTTP.zero HTTP.field (fun h => h.Method = "") rfl n ?_ t ht
  intro kv hkv name dec hk hd t ht
  have hne : name ≠ "method" := fun e => (omits_iff "method" n).1 ho kv hkv (e ▸ hk)
  rw [HTTP.field_Method name dec hd hne]
  exact ht

theorem zeroWhereOmitted (v : Node) :
    ZeroWhereOmitted v (unmarshalBenchConfig v BenchConfig.zero).out := by
  have hC : v.omits "concurrency" → (unmarshalBenchConfig v BenchConfig.zero).out.C = 0 := by
    intro ho
    refine unmarshalStruct_invariant BenchConfig.zero BenchConfig.field (fun b => b.C = 0) rfl v
      ?_ _ rfl
    intro kv hkv name dec hk hd t ht
    have hne : name ≠ "concurrency" := fun e => (omits_iff _ v).1 ho kv hkv (e ▸ hk)
    rw [BenchConfig.field_C name dec hd hne]
    exact ht
  have hN : v.omits "requests" → (unmarshalBenchConfig v BenchConfig.zero).out.N = 0 := by
    intro ho
    refine unmarshalStruct_invariant BenchConfig.zero BenchConfig.field (fun b => b.N = 0) rfl v
      ?_ _ rfl
    intro kv hkv name dec hk hd t ht
    have hne : name ≠ "requests" := fun e => (omits_iff _ v).1 ho kv hkv (e ▸ hk)
    rw [BenchConfig.field_N name dec hd hne]
    exact ht
  have hM : (∀ h ∈ v.valuesOf "http", h.omits "method") →
      (unmarshalBenchConfig v BenchConfig.zero).out.HTTP.Method = "" := by
    intro ho
    refine unmarshalStruct_invariant BenchConfig.zero BenchConfig.field
      (fun b => b.HTTP.Method = "") rfl v ?_ _ rfl
    intro kv hkv name dec hk hd t ht
    by_cases hn : name = "http"
    · subst hn
      have hdec : BenchConfig.field "http" = some fun n b =>
          ({ b with HTTP := (unmarshalStruct HTTP.zero HTTP.field n b.HTTP).out },
            (unmarshalStruct HTTP.zero HTTP.field n b.HTTP).terrors) := rfl
      rw [hdec] at hd
      cases hd
      exact unmarshalHTTP_Method kv.2 (ho kv.2 (mem_valuesOf "http" v kv hkv hk)) t.HTTP ht
    · rw [BenchConfig.field_HTTP name dec hd hn]
      exact ht
  have hR : v.omits "serviceResolution" →
      (unmarshalBenchConfig v BenchConfig.zero).out.ServiceResolution.Mode = "" := by
    intro ho
    refine unmarshalStruct_invariant BenchConfig.zero BenchConfig.field
      (fun b => b.ServiceResolution.Mode = "") rfl v ?_ _ rfl
    intro kv hkv name dec hk hd t ht
    have hne : name ≠ "serviceResolution" := fun e => (omits_iff _ v).1 ho kv hkv (e ▸ hk)
    rw [BenchConfig.field_ServiceResolution name dec hd hne]
    exact ht
  refine ⟨hC, hN, hM, hR, ?_⟩
  rintro (ho | ho | ho) heq
  · have := hC ho
    rw [heq] at this
    exact absurd this (by decide)
  · have := hN ho
    rw [heq] at this
    exact absurd this (by decide)
  · have := hM ho
    rw [heq] at this
    exact absurd this (by decide)

theorem mem_setIndex {α : Type} (k k' : String) (v v' : α) (m : List (String × α))
    (h : (k', v') ∈ setIndex k v m) : (k', v') ∈ m ∨ (k' = k ∧ v' = v) := by
  induction m with
  | nil =>
    simp only [setIndex, List.mem_singleton, Prod.mk.injEq] at h
    exact Or.inr h
  | cons kv rest ih =>
    obtain ⟨k₀, v₀⟩ := kv
    simp only [setIndex] at h
    split_ifs at h with h₀
    · rcases List.mem_cons.1 h with h | h
      · simp only [Prod.mk.injEq] at h
        exact Or.inr h
      · exact Or.inl (List.mem_cons_of_mem _ h)
    · rcases List.mem_cons.1 h with h | h
      · exact Or.inl (h ▸ List.mem_cons_self _ _)
      · rcases ih h with h | h
        · exact Or.inl (List.mem_cons_of_mem _ h)
        · exact Or.inr h

theorem mem_of_lookup {α : Type} (k : String) (v : α) (m : List (String × α))
    (h : m.lookup k = some v) : (k, v) ∈ m := by
  induction m with
  | nil => simp [List.lookup] at h
  | cons kv rest ih =>
    obtain ⟨k₀, v₀⟩ := kv
    by_cases hk : k = k₀
    · subst hk
      simp [List.lookup] at h
      simp [h]
    · have hb : (k == k₀) = false := by simpa using hk
      simp only [List.lookup, hb] at h
      exact List.mem_cons_of_mem _ (ih h)

theorem mappingMap_origin (children : List (Node × Node)) (m : List (String × BenchConfig))
    (k : String) (e : BenchConfig)
    (h : (k, e) ∈ (mappingMap BenchConfig.zero unmarshalBenchConfig children m).1) :
    (k, e) ∈ m ∨ ∃ kv ∈ children, kv.1.key = some k ∧
      e = (unmarshalBenchConfig kv.2 BenchConfig.zero).out := by
  induction children generalizing m with
  | nil => exact Or.inl h
  | cons kv rest ih =>
    obtain ⟨nk, nv⟩ := kv
    simp only [mappingMap] at h
    split at h
    · rename_i hg
      rcases ih _ h with h | ⟨kv, hkv, hk, he⟩
      · split at h
        · rcases mem_setIndex _ _ _ _ _ h with h | ⟨h₁, h₂⟩
          · exact Or.inl h
          · refine Or.inr ⟨(nk, nv), List.mem_cons_self _ _, ?_, h₂⟩
            simp [Node.key, hg, h₁]
        · exact Or.inl h
      · exact Or.inr ⟨kv, List.mem_cons_of_mem _ hkv, hk, he⟩
    · rcases ih _ h with h | ⟨kv, hkv, hk, he⟩
      · exact Or.inl h
      · exact Or.inr ⟨kv, List.mem_cons_of_mem _ hkv, hk, he⟩

theorem unmarshalMap_origin (src : List (Node × Node)) (n : Node) (hn : ∀ kv ∈ n.pairs, kv ∈ src)
    (m : GoMap BenchConfig) (hm : FromNodes src m) :
    FromNodes src (unmarshalMap BenchConfig.zero unmarshalBenchConfig n m).out := by
  cases n with
  | scalar v r =>
    cases r
    · intro k e h
      simp [unmarshalMap] at h
    all_goals exact hm
  | mapping c =>
    intro k e h
    rcases mappingMap_origin c (m.getD []) k e h with h | ⟨kv, hkv, hk, he⟩
    · exact hm k e h
    · exact ⟨kv, hn kv hkv, hk, he⟩
  | sequence c => exact hm

theorem fromNodes_nil (src : List (Node × Node)) : FromNodes src none := by
  intro k e h
  simp at h

theorem mem_entryNodes (sect : String) (root bn sv : Node) (p : Node × Node)
    (hb : bn ∈ root.valuesOf "benchmarks") (hs : sv ∈ bn.valuesOf sect) (hp : p ∈ sv.pairs) :
    p ∈ entryNodes sect root := by
  simp only [entryNodes, List.mem_flatMap]
  exact ⟨sv, ⟨bn, hb, hs⟩, hp⟩

theorem Benchmarks.field_origin (root bn : Node) (hb : bn ∈ root.valuesOf "benchmarks")
    (kv : Node × Node) (hkv : kv ∈ bn.pairs) (name : String)
    (dec : Node → Benchmarks → Benchmarks × Nat) (hk : kv.1.key = some name)
    (hd : Benchmarks.field name = some dec) (b : Benchmarks) (h : EntriesFrom root b) :
    EntriesFrom root (dec kv.2 b).1 := by
  unfold Benchmarks.field at hd
  split_ifs at hd with h₁ h₂ h₃ <;> cases hd
  · exact h
  · subst h₂
    refine ⟨unmarshalMap_origin _ kv.2 ?_ b.Services h.1, h.2⟩
    intro p hp
    exact mem_entryNodes "services" root bn kv.2 p hb (mem_valuesOf _ bn kv hkv hk) hp
  · subst h₃
    refine ⟨h.1, unmarshalMap_origin _ kv.2 ?_ b.Containers h.2⟩
    intro p hp
    exact mem_entryNodes "containers" root bn kv.2 p hb (mem_valuesOf _ bn kv hkv hk) hp

theorem unmarshalBenchmarksPtr_origin (root bn : Node) (hb : bn ∈ root.valuesOf "benchmarks")
    (o : Option Benchmarks) (ho : ∀ b, o = some b → EntriesFrom root b) :
    ∀ b, (unmarshalBenchmarksPtr bn o).out = some b → EntriesFrom root b := by
  have hz : EntriesFrom root Benchmarks.zero := ⟨fromNodes_nil _, fromNodes_nil _⟩
  have hstart : EntriesFrom root (o.getD Benchmarks.zero) := by
    cases o with
    | none => exact hz
    | some b => exact ho b rfl
  have hmain : EntriesFrom root
      (unmarshalStruct Benchmarks.zero Benchmarks.field bn (o.getD Benchmarks.zero)).out :=
    unmarshalStruct_invariant Benchmarks.zero Benchmarks.field (EntriesFrom root) hz bn
      (fun kv hkv name dec hk hd t ht =>
        Benchmarks.field_origin root bn hb kv hkv name dec hk hd t ht) _ hstart
  intro b hbo
  cases bn with
  | scalar v r =>
    simp only [unmarshalBenchmarksPtr] at hbo
    split at hbo
    · split at hbo
      · cases hbo
      · exact ho b hbo
    · simp only [Option.some.injEq] at hbo
      exact hbo ▸ hmain
  | mapping c =>
    simp only [unmarshalBenchmarksPtr, Option.some.injEq] at hbo
    exact hbo ▸ hmain
  | sequence c =>
    simp only [unmarshalBenchmarksPtr, Option.some.injEq] at hbo
    exact hbo ▸ hmain

theorem unmarshalRoot_origin (root : Node) (s : Bench)
    (hs : ∀ b, s.Benchmarks = some b → EntriesFrom root b) :
    ∀ b, (unmarshalRoot root s).1.Benchmarks = some b → EntriesFrom root b := by
  cases root with
  | scalar v r =>
    intro b hb
    simp only [unmarshalRoot] at hb
    split at hb
    · exact hs b hb
    · cases r
      · simp [unmarshalStruct] at hb
      all_goals exact hs b hb
  | sequence c => exact hs
  | mapping c =>
    refine mappingStruct_invariant Bench.field
      (fun s => ∀ b, s.Benchmarks = some b → EntriesFrom (.mapping c) b) c ?_ s hs
    intro kv hkv name dec hk hd t ht
    unfold Bench.field at hd
    split_ifs at hd with h₁
    cases hd
    subst h₁
    exact unmarshalBenchmarksPtr_origin (.mapping c) kv.2
      (mem_valuesOf "benchmarks" (.mapping c) kv hkv hk) t.Benchmarks ht

theorem NewBench_origin (fs : FileSystem) (path : String) (root : Node)
    (hf : fs path = .ok (.document root)) :
    ∀ b, (NewBench fs path).1.Benchmarks = some b → EntriesFrom root b := by
  have h : (NewBench fs path).1 = (unmarshalRoot root { Benchmarks := some newBenchmarks }).1 := by
    simp [NewBench, load, hf, Unmarshal]
  rw [h]
  refine unmarshalRoot_origin root _ ?_
  intro b hb
  cases hb
  exact ⟨fromNodes_nil _, fromNodes_nil _⟩

/-! ## Decoding a mapping whose keys are distinct -/

theorem key_of_good (n : Node) (h : (unmarshalString n "").good = true) :
    n.key = some (unmarshalString n "").out := by
  simp [Node.key, h]

theorem key_of_not_good (n : Node) (h : ¬ (unmarshalString n "").good = true) :
    n.key = none := by
  simp [Node.key, h]

theorem valuesOf_cons (name : String) (nk nv : Node) (rest : List (Node × Node)) :
    (Node.mapping ((nk, nv) :: rest)).valuesOf name =
      if nk.key = some name then nv :: (Node.mapping rest).valuesOf name
      else (Node.mapping rest).valuesOf name := by
  by_cases h : nk.key = some name <;> simp [Node.valuesOf, Node.pairs, List.filter_cons, h]

theorem valuesOf_eq_nil (name : String) (children : List (Node × Node))
    (h : some name ∉ children.map fun kv => kv.1.key) :
    (Node.mapping children).valuesOf name = [] := by
  induction children with
  | nil => rfl
  | cons kv rest ih =>
    obtain ⟨nk, nv⟩ := kv
    simp only [List.map_cons, List.mem_cons, not_or] at h
    have hk : ¬ nk.key = some name := fun e => h.1 e.symm
    rw [valuesOf_cons, if_neg hk]
    exact ih h.2

theorem wellKeyed_cons (nk nv : Node) (rest : List (Node × Node))
    (h : wellKeyed ((nk, nv) :: rest) = true) :
    nk.key.isSome = true ∧ (nk.key ∉ rest.map fun kv => kv.1.key) ∧ wellKeyed rest = true := by
  simp only [wellKeyed, List.all_cons, List.map_cons, List.nodup_cons, Bool.and_eq_true,
    decide_eq_true_eq] at h ⊢
  exact ⟨h.1.1, h.2.1, h.1.2, h.2.2⟩

theorem valuesOf_length_le_one (name : String) (children : List (Node × Node))
    (h : wellKeyed children = true) : ((Node.mapping children).valuesOf name).length ≤ 1 := by
  induction children with
  | nil => simp [Node.valuesOf, Node.pairs]
  | cons kv rest ih =>
    obtain ⟨nk, nv⟩ := kv
    obtain ⟨-, hnot, hrest⟩ := wellKeyed_cons nk nv rest h
    rw [valuesOf_cons]
    split
    · rename_i hk
      rw [valuesOf_eq_nil name rest (hk ▸ hnot)]
      simp
    · exact ih hrest

theorem mappingStruct_proj {T A : Type} (field : String → Option (Node → T → T × Nat))
    (π : T → A) (κ : String) (dec : Node → T → T × Nat) (g : Node → A → A)
    (hd : field κ = some dec) (hκ : ∀ n t, π (dec n t).1 = g n (π t))
    (hother : ∀ name dec', name ≠ κ → field name = some dec' → ∀ n t, π (dec' n t).1 = π t)
    (children : List (Node × Node))
    (hone : ((Node.mapping children).valuesOf κ).length ≤ 1) (t : T) :
    π (mappingStruct field children t).1 =
      match (Node.mapping children).find κ with
      | none => π t
      | some v => g v (π t) := by
  induction children generalizing t with
  | nil => rfl
  | cons kv rest ih =>
    obtain ⟨nk, nv⟩ := kv
    simp only [Node.find, valuesOf_cons] at hone ⊢
    simp only [mappingStruct]
    split
    · rename_i hg
      have hkey := key_of_good nk hg
      by_cases hn : (unmarshalString nk "").out = κ
      · have hk : nk.key = some κ := by rw [hkey, hn]
        rw [if_pos hk] at hone ⊢
        have hnil : (Node.mapping rest).valuesOf κ = [] := by
          cases hv : (Node.mapping rest).valuesOf κ with
          | nil => rfl
          | cons a l => rw [hv] at hone; simp at hone
        have hrest := ih (by rw [hnil]; simp) (dec nv t).1
        simp only [Node.find, hnil, List.head?_nil] at hrest
        rw [hn, hd]
        simp only [List.head?_cons]
        rw [hrest, hκ]
      · have hk : ¬ nk.key = some κ := by
          rw [hkey]
          intro e
          exact hn (Option.some.inj e)
        rw [if_neg hk] at hone ⊢
        cases hf : field (unmarshalString nk "").out with
        | none => exact ih hone t
        | some dec' =>
          have hrest := ih hone (dec' nv t).1
          simp only [Node.find] at hrest
          simp only [hrest, hother _ dec' hn hf]
    · rename_i hg
      have hk : ¬ nk.key = some κ := by
        rw [key_of_not_good nk hg]
        simp
      rw [if_neg hk] at hone ⊢
      exact ih hone t

theorem mappingStruct_noerr {T : Type} (field : String → Option (Node → T → T × Nat))
    (children : List (Node × Node)) (hk : ∀ kv ∈ children, kv.1.key.isSome = true)
    (hv : ∀ kv ∈ children, ∀ name dec, kv.1.key = some name → field name = some dec →
      ∀ t, (dec kv.2 t).2 = 0)
    (t : T) : (mappingStruct field children t).2 = 0 := by
  induction children generalizing t with
  | nil => rfl
  | cons kv rest ih =>
    obtain ⟨nk, nv⟩ := kv
    have hk' : ∀ kv ∈ rest, kv.1.key.isSome = true := fun kv h => hk kv (List.mem_cons_of_mem _ h)
    have hv' : ∀ kv ∈ rest, ∀ name dec, kv.1.key = some name → field name = some dec →
        ∀ t, (dec kv.2 t).2 = 0 := fun kv h => hv kv (List.mem_cons_of_mem _ h)
    simp only [mappingStruct]
    split
    · rename_i hg
      cases hf : field (unmarshalString nk "").out with
      | none => exact ih hk' hv' t
      | some dec =>
        simp only []
        rw [hv (nk, nv) (List.mem_cons_self _ _) _ dec (key_of_good nk hg) hf t, ih hk' hv']
    · rename_i hg
      have := hk (nk, nv) (List.mem_cons_self _ _)
      rw [key_of_not_good nk hg] at this
      simp at this

/-! ### Values of the type of their field -/

theorem unmarshalString_asText (n : Node) : (unmarshalString n "").out = n.asText := by
  cases n with
  | scalar v r => cases r <;> rfl
  | mapping c => rfl
  | sequence c => rfl

theorem unmarshalString_read (n : Node) (h : n.isScalar = true) (old : String) :
    unmarshalString n old = ⟨n.asText, true, 0⟩ := by
  cases n with
  | scalar v r => cases r <;> rfl
  | mapping c => simp [Node.isScalar] at h
  | sequence c => simp [Node.isScalar] at h

theorem key_read (n : Node) (h : n.key.isSome = true) :
    n.key = some n.asText ∧ unmarshalString n "" = ⟨n.asText, true, 0⟩ := by
  cases n with
  | scalar v r => cases r <;> exact ⟨rfl, rfl⟩
  | mapping c => simp [Node.key, unmarshalString] at h
  | sequence c => simp [Node.key, unmarshalString] at h

theorem unmarshalInt_read (n : Node) (h : n.isInt = true) (old : Int) :
    unmarshalInt n old = ⟨n.asInt, true, 0⟩ := by
  cases n with
  | scalar v r =>
    cases r with
    | null => rfl
    | int i =>
      have hi : minInt ≤ i ∧ i ≤ maxInt := by simpa [Node.isInt] using h
      simp [unmarshalInt, Node.asInt, hi]
    | bool b => simp [Node.isInt] at h
    | float f => simp [Node.isInt] at h
    | str => simp [Node.isInt] at h
  | mapping c => simp [Node.isInt] at h
  | sequence c => simp [Node.isInt] at h

theorem unmarshalBool_read (n : Node) (h : n.isBool = true) (old : Bool) :
    unmarshalBool n old = ⟨n.asBool, true, 0⟩ := by
  cases n with
  | scalar v r =>
    cases r with
    | null => rfl
    | bool b => rfl
    | int i => simp [Node.isBool] at h
    | float f => simp [Node.isBool] at h
    | str => simp [Node.isBool] at h
  | mapping c => simp [Node.isBool] at h
  | sequence c => simp [Node.isBool] at h

theorem sequenceStrings_read (items : List Node) (h : items.all Node.isScalar = true) :
    sequenceStrings items = (items.map Node.asText, 0) := by
  induction items with
  | nil => rfl
  | cons n rest ih =>
    simp only [List.all_cons, Bool.and_eq_true] at h
    simp [sequenceStrings, unmarshalString_read n h.1, ih h.2]

theorem unmarshalStrings_read (n : Node) (h : n.isStrings = true) :
    unmarshalStrings n [] = ⟨n.asStrings, true, 0⟩ := by
  cases n with
  | scalar v r => cases r <;> first | rfl | simp [Node.isStrings] at h
  | mapping c => simp [Node.isStrings] at h
  | sequence items =>
    have hs : items.all Node.isScalar = true := h
    simp [unmarshalStrings, Node.asStrings, sequenceStrings_read items hs]

theorem mappingMap_read {α : Type} (zero : α) (elem : Node → α → Decoded α) (rd : Node → α)
    (children : List (Node × Node)) (hw : wellKeyed children = true)
    (he : ∀ kv ∈ children, elem kv.2 zero = ⟨rd kv.2, true, 0⟩)
    (m : List (String × α)) (hm : ∀ kv ∈ children, kv.1.asText ∉ m.map Prod.fst) :
    mappingMap zero elem children m =
      (m ++ children.map fun kv => (kv.1.asText, rd kv.2), 0) := by
  induction children generalizing m with
  | nil => simp [mappingMap]
  | cons kv rest ih =>
    obtain ⟨nk, nv⟩ := kv
    obtain ⟨hsome, hnot, hrest⟩ := wellKeyed_cons nk nv rest hw
    obtain ⟨hkey, hdec⟩ := key_read nk hsome
    have hnew : nk.asText ∉ m.map Prod.fst := hm (nk, nv) (List.mem_cons_self _ _)
    have hrestk : ∀ kv ∈ rest, kv.1.key.isSome = true := by
      intro kv hkv
      have := hrest
      simp only [wellKeyed, Bool.and_eq_true, List.all_eq_true] at this
      exact this.1 kv hkv
    simp only [mappingMap, hdec, he (nk, nv) (List.mem_cons_self _ _), if_true,
      setIndex_new nk.asText (rd nv) m hnew]
    rw [ih hrest (fun kv hkv => he kv (List.mem_cons_of_mem _ hkv))]
    · simp
    · intro kv hkv hmem
      simp only [List.map_append, List.map_cons, List.map_nil, List.mem_append,
        List.mem_singleton] at hmem
      rcases hmem with hmem | hmem
      · exact hm kv (List.mem_cons_of_mem _ hkv) hmem
      · apply hnot
        rw [hkey, ← hmem, ← (key_read kv.1 (hrestk kv hkv)).1]
        exact List.mem_map_of_mem (fun kv => kv.1.key) hkv

theorem unmarshalHeader_read (n : Node) (h : n.isHeaders = true) :
    unmarshalHeader n none = ⟨n.asHeaders, true, 0⟩ := by
  cases n with
  | scalar v r => cases r <;> first | rfl | simp [Node.isHeaders] at h
  | sequence c => simp [Node.isHeaders] at h
  | mapping c =>
    simp only [Node.isHeaders, Bool.and_eq_true, List.all_eq_true] at h
    have hm := mappingMap_read [] unmarshalStrings Node.asStrings c h.1
      (fun kv hkv => unmarshalStrings_read kv.2 (h.2 kv hkv)) [] (by simp)
    simp [unmarshalHeader, unmarshalMap, Node.asHeaders, hm]

theorem find_mem (name : String) (n v : Node) (h : n.find name = some v) :
    v ∈ n.valuesOf name := by
  unfold Node.find at h
  exact List.mem_of_mem_head? h

theorem allUnder_find (name : String) (p : Node → Bool) (n v : Node)
    (ha : n.allUnder name p = true) (h : n.find name = some v) : p v = true := by
  simp only [Node.allUnder, List.all_eq_true] at ha
  exact ha v (find_mem name n v h)

theorem allUnder_mem (name : String) (p : Node → Bool) (n : Node) (kv : Node × Node)
    (ha : n.allUnder name p = true) (hkv : kv ∈ n.pairs) (hk : kv.1.key = some name) :
    p kv.2 = true := by
  simp only [Node.allUnder, List.all_eq_true] at ha
  exact ha kv.2 (mem_valuesOf name n kv hkv hk)

theorem wellKeyed_keys (children : List (Node × Node)) (h : wellKeyed children = true) :
    ∀ kv ∈ children, kv.1.key.isSome = true := by
  simp only [wellKeyed, Bool.and_eq_true, List.all_eq_true] at h
  exact h.1

/-! ### A key leaves the fields of the other keys alone -/

theorem Auth_keeps_User (name : String) (dec : Node → Auth → Auth × Nat)
    (hne : name ≠ "user") (h : Auth.field name = some dec) (n : Node) (t : Auth) :
    (dec n t).1.User = t.User := by
  unfold Auth.field at h
  split_ifs at h <;> cases h <;> first | rfl | contradiction

theorem Auth_keeps_Password (name : String) (dec : Node → Auth → Auth × Nat)
    (hne : name ≠ "password") (h : Auth.field name = some dec) (n : Node) (t : Auth) :
    (dec n t).1.Password = t.Password := by
  unfold Auth.field at h
  split_ifs at h
  cases h
  rfl

theorem Benchmark_keeps_C (name : String) (dec : Node → Benchmark → Benchmark × Nat)
    (hne : name ≠ "concurrency") (h : Benchmark.field name = some dec) (n : Node) (t : Benchmark) :
    (dec n t).1.C = t.C := by
  unfold Benchmark.field at h
  split_ifs at h <;> cases h <;> first | rfl | contradiction

theorem Benchmark_keeps_N (name : String) (dec : Node → Benchmark → Benchmark × Nat)
    (hne : name ≠ "requests") (h : Benchmark.field name = some dec) (n : Node) (t : Benchmark) :
    (dec n t).1.N = t.N := by
  unfold Benchmark.field at h
  split_ifs at h
  cases h
  rfl

theorem HTTP_keeps_Method (name : String) (dec : Node → HTTP → HTTP × Nat)
    (hne : name ≠ "method") (h : HTTP.field name = some dec) (n : Node) (t : HTTP) :
    (dec n t).1.Method = t.Method := by
  unfold HTTP.field at h
  split_ifs at h <;> cases h <;> first | rfl | contradiction

theorem HTTP_keeps_Host (name : String) (dec : Node → HTTP → HTTP × Nat)
    (hne : name ≠ "host") (h : HTTP.field name = some dec) (n : Node) (t : HTTP) :
    (dec n t).1.Host = t.Host := by
  unfold HTTP.field at h
  split_ifs at h <;> cases h <;> rfl

theorem HTTP_keeps_Path (name : String) (dec : Node → HTTP → HTTP × Nat)
    (hne : name ≠ "path") (h : HTTP.field name = some dec) (n : Node) (t : HTTP) :
    (dec n t).1.Path = t.Path := by
  unfold HTTP.field at h
  split_ifs at h <;> cases h <;> rfl

theorem HTTP_keeps_HTTPS (name : String) (dec : Node → HTTP → HTTP × Nat)
    (hne : name ≠ "https") (h : HTTP.field name = some dec) (n : Node) (t : HTTP) :
    (dec n t).1.HTTPS = t.HTTPS := by
  unfold HTTP.field at h
  split_ifs at h <;> cases h <;> rfl

theorem HTTP_keeps_HTTP2 (name : String) (dec : Node → HTTP → HTTP × Nat)
    (hne : name ≠ "http2") (h : HTTP.field name = some dec) (n : Node) (t : HTTP) :
    (dec n t).1.HTTP2 = t.HTTP2 := by
  unfold HTTP.field at h
  split_ifs at h <;> cases h <;> rfl

theorem HTTP_keeps_Body (name : String) (dec : Node → HTTP → HTTP × Nat)
    (hne : name ≠ "body") (h : HTTP.field name = some dec) (n : Node) (t : HTTP) :
    (dec n t).1.Body = t.Body := by
  unfold HTTP.field at h
  split_ifs at h <;> cases h <;> rfl

theorem HTTP_keeps_Headers (name : String) (dec : Node → HTTP → HTTP × Nat)
    (hne : name ≠ "headers") (h : HTTP.field name = some dec) (n : Node) (t : HTTP) :
    (dec n t).1.Headers = t.Headers := by
  unfold HTTP.field at h
  split_ifs at h <;> cases h <;> rfl

theorem ServiceResolution_keeps_Mode (name : String) (dec : Node → ServiceResolution →
    ServiceResolution × Nat)
    (hne : name ≠ "mode") (h : ServiceResolution.field name = some dec) (n : Node) (t :
        ServiceResolution) :
    (dec n t).1.Mode = t.Mode := by
  unfold ServiceResolution.field at h
  split_ifs at h
  cases h
  first | rfl | contradiction

theorem BenchConfig_keeps_Name (name : String) (dec : Node → BenchConfig → BenchConfig × Nat)
    (hne : name ≠ "name") (h : BenchConfig.field name = some dec) (n : Node) (t : BenchConfig) :
    (dec n t).1.Name = t.Name := by
  unfold BenchConfig.field at h
  split_ifs at h <;> cases h <;> first | rfl | contradiction

theorem BenchConfig_keeps_C (name : String) (dec : Node → BenchConfig → BenchConfig × Nat)
    (hne : name ≠ "concurrency") (h : BenchConfig.field name = some dec) (n : Node) (t :
        BenchConfig) :
    (dec n t).1.C = t.C := by
  unfold BenchConfig.field at h
  split_ifs at h <;> cases h <;> rfl

theorem BenchConfig_keeps_N (name : String) (dec : Node → BenchConfig → BenchConfig × Nat)
    (hne : name ≠ "requests") (h : BenchConfig.field name = some dec) (n : Node) (t : BenchConfig) :
    (dec n t).1.N = t.N := by
  unfold BenchConfig.field at h
  split_ifs at h <;> cases h <;> rfl

theorem BenchConfig_keeps_Auth (name : String) (dec : Node → BenchConfig → BenchConfig × Nat)
    (hne : name ≠ "auth") (h : BenchConfig.field name = some dec) (n : Node) (t : BenchConfig) :
    (dec n t).1.Auth = t.Auth := by
  unfold BenchConfig.field at h
  split_ifs at h <;> cases h <;> rfl

theorem BenchConfig_keeps_HTTP (name : String) (dec : Node → BenchConfig → BenchConfig × Nat)
    (hne : name ≠ "http") (h : BenchConfig.field name = some dec) (n : Node) (t : BenchConfig) :
    (dec n t).1.HTTP = t.HTTP := by
  unfold BenchConfig.field at h
  split_ifs at h <;> cases h <;> rfl

theorem BenchConfig_keeps_ServiceResolution (name : String) (dec : Node → BenchConfig → BenchConfig
    × Nat)
    (hne : name ≠ "serviceResolution") (h : BenchConfig.field name = some dec) (n : Node) (t :
        BenchConfig) :
    (dec n t).1.ServiceResolution = t.ServiceResolution := by
  unfold BenchConfig.field at h
  split_ifs at h <;> cases h <;> rfl

theorem Benchmarks_keeps_Defaults (name : String) (dec : Node → Benchmarks → Benchmarks × Nat)
    (hne : name ≠ "defaults") (h : Benchmarks.field name = some dec) (n : Node) (t : Benchmarks) :
    (dec n t).1.Defaults = t.Defaults := by
  unfold Benchmarks.field at h
  split_ifs at h <;> cases h <;> first | rfl | contradiction

theorem Benchmarks_keeps_Services (name : String) (dec : Node → Benchmarks → Benchmarks × Nat)
    (hne : name ≠ "services") (h : Benchmarks.field name = some dec) (n : Node) (t : Benchmarks) :
    (dec n t).1.Services = t.Services := by
  unfold Benchmarks.field at h
  split_ifs at h <;> cases h <;> rfl

theorem Benchmarks_keeps_Containers (name : String) (dec : Node → Benchmarks → Benchmarks × Nat)
    (hne : name ≠ "containers") (h : Benchmarks.field name = some dec) (n : Node) (t : Benchmarks) :
    (dec n t).1.Containers = t.Containers := by
  unfold Benchmarks.field at h
  split_ifs at h <;> cases h <;> rfl

theorem Bench_keeps_Benchmarks (name : String) (dec : Node → Bench → Bench × Nat)
    (hne : name ≠ "benchmarks") (h : Bench.field name = some dec) (n : Node) (t : Bench) :
    (dec n t).1.Benchmarks = t.Benchmarks := by
  unfold Bench.field at h
  split_ifs at h
  cases h
  first | rfl | contradiction

/-! ### Decoding the structs of a document that matches the schema -/

theorem field_read {T A : Type} (field : String → Option (Node → T → T × Nat))
    (π : T → A) (κ : String) (dec : Node → T → T × Nat) (g : Node → A → A)
    (hd : field κ = some dec) (hκ : ∀ n t, π (dec n t).1 = g n (π t))
    (hother : ∀ name dec', name ≠ κ → field name = some dec' → ∀ n t, π (dec' n t).1 = π t)
    (children : List (Node × Node)) (hw : wellKeyed children = true) (t : T)
    (rd : Node → A) (hrd : ∀ v, (Node.mapping children).find κ = some v → g v (π t) = rd v) :
    π (mappingStruct field children t).1 =
      (((Node.mapping children).find κ).map rd).getD (π t) := by
  rw [mappingStruct_proj field π κ dec g hd hκ hother children
    (valuesOf_length_le_one κ children hw) t]
  cases hf : (Node.mapping children).find κ with
  | none => rfl
  | some v => exact hrd v hf

theorem text_ok (v : Node) (h : v.isScalar = true) (old : String) :
    (unmarshalString v old).terrors = 0 := by
  rw [unmarshalString_read v h]

theorem int_ok (v : Node) (h : v.isInt = true) (old : Int) :
    (unmarshalInt v old).terrors = 0 := by
  rw [unmarshalInt_read v h]

theorem bool_ok (v : Node) (h : v.isBool = true) (old : Bool) :
    (unmarshalBool v old).terrors = 0 := by
  rw [unmarshalBool_read v h]

theorem headers_ok (v : Node) (h : v.isHeaders = true) (old : GoMap (List String)) :
    (unmarshalHeader v old).terrors = 0 := by
  have h₁ : (unmarshalHeader v old).terrors = (unmarshalHeader v none).terrors :=
    (unmarshalMap_errs [] unmarshalStrings v old none).1
  rw [h₁, unmarshalHeader_read v h]

theorem unmarshalAuth_read (n : Node) (h : n.isAuth = true) :
    unmarshalStruct Auth.zero Auth.field n Auth.zero = ⟨n.asAuth, true, 0⟩ := by
  cases n with
  | scalar v r => cases r <;> first | rfl | simp [Node.isAuth, Node.isRecord] at h
  | sequence c => simp [Node.isAuth, Node.isRecord] at h
  | mapping c =>
    simp only [Node.isAuth, Node.isRecord, Bool.and_eq_true] at h
    obtain ⟨hw, ⟨hUser, hPassword⟩⟩ := h
    have fUser := field_read Auth.field (fun a => a.User) "user" _
      (fun v old => (unmarshalString v old).out) rfl (fun _ _ => rfl)
      Auth_keeps_User c hw Auth.zero Node.asText
      (fun v hv => congrArg Decoded.out (unmarshalString_read v (allUnder_find _ _ _ v hUser hv) _))
    have fPassword := field_read Auth.field (fun a => a.Password) "password" _
      (fun v old => (unmarshalString v old).out) rfl (fun _ _ => rfl)
      Auth_keeps_Password c hw Auth.zero Node.asText
      (fun v hv => congrArg Decoded.out (unmarshalString_read v (allUnder_find _ _ _ v hPassword
          hv) _))
    have he : (mappingStruct Auth.field c Auth.zero).2 = 0 := by
      refine mappingStruct_noerr Auth.field c (wellKeyed_keys c hw) ?_ _
      intro kv hkv name dec hk hd t
      unfold Auth.field at hd
      split_ifs at hd with e1 e2 <;> cases hd
      · subst e1
        exact text_ok kv.2 (allUnder_mem _ _ (.mapping c) kv hUser hkv hk) _
      · subst e2
        exact text_ok kv.2 (allUnder_mem _ _ (.mapping c) kv hPassword hkv hk) _
    have hout : (mappingStruct Auth.field c Auth.zero).1 = (Node.mapping c).asAuth := by
      have hx : (mappingStruct Auth.field c Auth.zero).1 =
          ⟨(mappingStruct Auth.field c Auth.zero).1.User, 
            (mappingStruct Auth.field c Auth.zero).1.Password⟩ := rfl
      rw [hx]
      beta_reduce at fUser fPassword
      rw [fUser, fPassword]
      rfl
    simp only [unmarshalStruct, he, hout]

theorem auth_ok (v : Node) (h : v.isAuth = true) (old : Auth) :
    (unmarshalStruct Auth.zero Auth.field v old).terrors = 0 := by
  have h₁ := (unmarshalStruct_errs Auth.zero Auth.field Auth_field_stable v old Auth.zero).1
  rw [h₁, unmarshalAuth_read v h]

theorem unmarshalHTTP_read (n : Node) (h : n.isHTTP = true) :
    unmarshalStruct HTTP.zero HTTP.field n HTTP.zero = ⟨n.asHTTP, true, 0⟩ := by
  cases n with
  | scalar v r => cases r <;> first | rfl | simp [Node.isHTTP, Node.isRecord] at h
  | sequence c => simp [Node.isHTTP, Node.isRecord] at h
  | mapping c =>
    simp only [Node.isHTTP, Node.isRecord, Bool.and_eq_true] at h
    obtain ⟨hw, ⟨⟨⟨⟨⟨⟨hMethod, hHost⟩, hPath⟩, hHTTPS⟩, hHTTP2⟩, hBody⟩, hHeaders⟩⟩ := h
    have fMethod := field_read HTTP.field (fun a => a.Method) "method" _
      (fun v old => (unmarshalString v old).out) rfl (fun _ _ => rfl)
      HTTP_keeps_Method c hw HTTP.zero Node.asText
      (fun v hv => congrArg Decoded.out (unmarshalString_read v (allUnder_find _ _ _ v hMethod hv)
          _))
    have fHost := field_read HTTP.field (fun a => a.Host) "host" _
      (fun v old => (unmarshalString v old).out) rfl (fun _ _ => rfl)
      HTTP_keeps_Host c hw HTTP.zero Node.asText
      (fun v hv => congrArg Decoded.out (unmarshalString_read v (allUnder_find _ _ _ v hHost hv) _))
    have fPath := field_read HTTP.field (fun a => a.Path) "path" _
      (fun v old => (unmarshalString v old).out) rfl (fun _ _ => rfl)
      HTTP_keeps_Path c hw HTTP.zero Node.asText
      (fun v hv => congrArg Decoded.out (unmarshalString_read v (allUnder_find _ _ _ v hPath hv) _))
    have fHTTPS := field_read HTTP.field (fun a => a.HTTPS) "https" _
      (fun v old => (unmarshalBool v old).out) rfl (fun _ _ => rfl)
      HTTP_keeps_HTTPS c hw HTTP.zero Node.asBool
      (fun v hv => congrArg Decoded.out (unmarshalBool_read v (allUnder_find _ _ _ v hHTTPS hv) _))
    have fHTTP2 := field_read HTTP.field (fun a => a.HTTP2) "http2" _
      (fun v old => (unmarshalBool v old).out) rfl (fun _ _ => rfl)
      HTTP_keeps_HTTP2 c hw HTTP.zero Node.asBool
      (fun v hv => congrArg Decoded.out (unmarshalBool_read v (allUnder_find _ _ _ v hHTTP2 hv) _))
    have fBody := field_read HTTP.field (fun a => a.Body) "body" _
      (fun v old => (unmarshalString v old).out) rfl (fun _ _ => rfl)
      HTTP_keeps_Body c hw HTTP.zero Node.asText
      (fun v hv => congrArg Decoded.out (unmarshalString_read v (allUnder_find _ _ _ v hBody hv) _))
    have fHeaders := field_read HTTP.field (fun a => a.Headers) "headers" _
      (fun v old => (unmarshalHeader v old).out) rfl (fun _ _ => rfl)
      HTTP_keeps_Headers c hw HTTP.zero Node.asHeaders
      (fun v hv => congrArg Decoded.out (unmarshalHeader_read v (allUnder_find _ _ _ v hHeaders
          hv)))
    have he : (mappingStruct HTTP.field c HTTP.zero).2 = 0 := by
      refine mappingStruct_noerr HTTP.field c (wellKeyed_keys c hw) ?_ _
      intro kv hkv name dec hk hd t
      unfold HTTP.field at hd
      split_ifs at hd with e1 e2 e3 e4 e5 e6 e7 <;> cases hd
      · subst e1
        exact text_ok kv.2 (allUnder_mem _ _ (.mapping c) kv hMethod hkv hk) _
      · subst e2
        exact text_ok kv.2 (allUnder_mem _ _ (.mapping c) kv hHost hkv hk) _
      · subst e3
        exact text_ok kv.2 (allUnder_mem _ _ (.mapping c) kv hPath hkv hk) _
      · subst e4
        exact bool_ok kv.2 (allUnder_mem _ _ (.mapping c) kv hHTTPS hkv hk) _
      · subst e5
        exact bool_ok kv.2 (allUnder_mem _ _ (.mapping c) kv hHTTP2 hkv hk) _
      · subst e6
        exact text_ok kv.2 (allUnder_mem _ _ (.mapping c) kv hBody hkv hk) _
      · subst e7
        exact headers_ok kv.2 (allUnder_mem _ _ (.mapping c) kv hHeaders hkv hk) _
    have hout : (mappingStruct HTTP.field c HTTP.zero).1 = (Node.mapping c).asHTTP := by
      have hx : (mappingStruct HTTP.field c HTTP.zero).1 =
          ⟨(mappingStruct HTTP.field c HTTP.zero).1.Method, 
            (mappingStruct HTTP.field c HTTP.zero).1.Host, 
            (mappingStruct HTTP.field c HTTP.zero).1.Path, 
            (mappingStruct HTTP.field c HTTP.zero).1.HTTPS, 
            (mappingStruct HTTP.field c HTTP.zero).1.HTTP2, 
            (mappingStruct HTTP.field c HTTP.zero).1.Body, 
            (mappingStruct HTTP.field c HTTP.zero).1.Headers⟩ := rfl
      rw [hx]
      beta_reduce at fMethod fHost fPath fHTTPS fHTTP2 fBody fHeaders
      rw [fMethod, fHost, fPath, fHTTPS, fHTTP2, fBody, fHeaders]
      rfl
    simp only [unmarshalStruct, he, hout]

theorem http_ok (v : Node) (h : v.isHTTP = true) (old : HTTP) :
    (unmarshalStruct HTTP.zero HTTP.field v old).terrors = 0 := by
  have h₁ := (unmarshalStruct_errs HTTP.zero HTTP.field HTTP_field_stable v old HTTP.zero).1
  rw [h₁, unmarshalHTTP_read v h]

theorem unmarshalServiceResolution_read (n : Node) (h : n.isServiceResolution = true) :
    unmarshalStruct ServiceResolution.zero ServiceResolution.field n ServiceResolution.zero =
        ⟨n.asServiceResolution, true, 0⟩ := by
  cases n with
  | scalar v r => cases r <;> first | rfl | simp [Node.isServiceResolution, Node.isRecord] at h
  | sequence c => simp [Node.isServiceResolution, Node.isRecord] at h
  | mapping c =>
    simp only [Node.isServiceResolution, Node.isRecord, Bool.and_eq_true] at h
    obtain ⟨hw, hMode⟩ := h
    have fMode := field_read ServiceResolution.field (fun a => a.Mode) "mode" _
      (fun v old => (unmarshalString v old).out) rfl (fun _ _ => rfl)
      ServiceResolution_keeps_Mode c hw ServiceResolution.zero Node.asText
      (fun v hv => congrArg Decoded.out (unmarshalString_read v (allUnder_find _ _ _ v hMode hv) _))
    have he : (mappingStruct ServiceResolution.field c ServiceResolution.zero).2 = 0 := by
      refine mappingStruct_noerr ServiceResolution.field c (wellKeyed_keys c hw) ?_ _
      intro kv hkv name dec hk hd t
      unfold ServiceResolution.field at hd
      split_ifs at hd with e1
      cases hd
      · subst e1
        exact text_ok kv.2 (allUnder_mem _ _ (.mapping c) kv hMode hkv hk) _
    have hout : (mappingStruct ServiceResolution.field c ServiceResolution.zero).1 = (Node.mapping
        c).asServiceResolution := by
      have hx : (mappingStruct ServiceResolution.field c ServiceResolution.zero).1 =
          ⟨(mappingStruct ServiceResolution.field c ServiceResolution.zero).1.Mode⟩ := rfl
      rw [hx]
      beta_reduce at fMode
      rw [fMode]
      rfl
    simp only [unmarshalStruct, he, hout]

theorem serviceResolution_ok (v : Node) (h : v.isServiceResolution = true) (old :
    ServiceResolution) :
    (unmarshalStruct ServiceResolution.zero ServiceResolution.field v old).terrors = 0 := by
  have h₁ := (unmarshalStruct_errs ServiceResolution.zero ServiceResolution.field
      ServiceResolution_field_stable v old ServiceResolution.zero).1
  rw [h₁, unmarshalServiceResolution_read v h]

theorem unmarshalEntry_read (n : Node) (h : n.isEntry = true) :
    unmarshalStruct BenchConfig.zero BenchConfig.field n BenchConfig.zero = ⟨n.asEntry, true, 0⟩ :=
        by
  cases n with
  | scalar v r => cases r <;> first | rfl | simp [Node.isEntry, Node.isRecord] at h
  | sequence c => simp [Node.isEntry, Node.isRecord] at h
  | mapping c =>
    simp only [Node.isEntry, Node.isRecord, Bool.and_eq_true] at h
    obtain ⟨hw, ⟨⟨⟨⟨⟨hName, hC⟩, hN⟩, hAuth⟩, hHTTP⟩, hServiceResolution⟩⟩ := h
    have fName := field_read BenchConfig.field (fun a => a.Name) "name" _
      (fun v old => (unmarshalString v old).out) rfl (fun _ _ => rfl)
      BenchConfig_keeps_Name c hw BenchConfig.zero Node.asText
      (fun v hv => congrArg Decoded.out (unmarshalString_read v (allUnder_find _ _ _ v hName hv) _))
    have fC := field_read BenchConfig.field (fun a => a.C) "concurrency" _
      (fun v old => (unmarshalInt v old).out) rfl (fun _ _ => rfl)
      BenchConfig_keeps_C c hw BenchConfig.zero Node.asInt
      (fun v hv => congrArg Decoded.out (unmarshalInt_read v (allUnder_find _ _ _ v hC hv) _))
    have fN := field_read BenchConfig.field (fun a => a.N) "requests" _
      (fun v old => (unmarshalInt v old).out) rfl (fun _ _ => rfl)
      BenchConfig_keeps_N c hw BenchConfig.zero Node.asInt
      (fun v hv => congrArg Decoded.out (unmarshalInt_read v (allUnder_find _ _ _ v hN hv) _))
    have fAuth := field_read BenchConfig.field (fun a => a.Auth) "auth" _
      (fun v old => (unmarshalStruct Auth.zero Auth.field v old).out) rfl (fun _ _ => rfl)
      BenchConfig_keeps_Auth c hw BenchConfig.zero Node.asAuth
      (fun v hv => congrArg Decoded.out (unmarshalAuth_read v (allUnder_find _ _ _ v hAuth hv)))
    have fHTTP := field_read BenchConfig.field (fun a => a.HTTP) "http" _
      (fun v old => (unmarshalStruct HTTP.zero HTTP.field v old).out) rfl (fun _ _ => rfl)
      BenchConfig_keeps_HTTP c hw BenchConfig.zero Node.asHTTP
      (fun v hv => congrArg Decoded.out (unmarshalHTTP_read v (allUnder_find _ _ _ v hHTTP hv)))
    have fServiceResolution := field_read BenchConfig.field (fun a => a.ServiceResolution)
        "serviceResolution" _
      (fun v old =>
        (unmarshalStruct ServiceResolution.zero ServiceResolution.field v old).out) rfl (fun _ _ =>
            rfl)
      BenchConfig_keeps_ServiceResolution c hw BenchConfig.zero Node.asServiceResolution
      (fun v hv => congrArg Decoded.out (unmarshalServiceResolution_read v (allUnder_find _ _ _ v
          hServiceResolution hv)))
    have he : (mappingStruct BenchConfig.field c BenchConfig.zero).2 = 0 := by
      refine mappingStruct_noerr BenchConfig.field c (wellKeyed_keys c hw) ?_ _
      intro kv hkv name dec hk hd t
      unfold BenchConfig.field at hd
      split_ifs at hd with e1 e2 e3 e4 e5 e6 <;> cases hd
      · subst e1
        exact text_ok kv.2 (allUnder_mem _ _ (.mapping c) kv hName hkv hk) _
      · subst e2
        exact int_ok kv.2 (allUnder_mem _ _ (.mapping c) kv hC hkv hk) _
      · subst e3
        exact int_ok kv.2 (allUnder_mem _ _ (.mapping c) kv hN hkv hk) _
      · subst e4
        exact auth_ok kv.2 (allUnder_mem _ _ (.mapping c) kv hAuth hkv hk) _
      · subst e5
        exact http_ok kv.2 (allUnder_mem _ _ (.mapping c) kv hHTTP hkv hk) _
      · subst e6
        exact serviceResolution_ok kv.2 (allUnder_mem _ _ (.mapping c) kv hServiceResolution hkv
            hk) _
    have hout : (mappingStruct BenchConfig.field c BenchConfig.zero).1 = (Node.mapping c).asEntry
        := by
      have hx : (mappingStruct BenchConfig.field c BenchConfig.zero).1 =
          ⟨(mappingStruct BenchConfig.field c BenchConfig.zero).1.Name, 
            (mappingStruct BenchConfig.field c BenchConfig.zero).1.C, 
            (mappingStruct BenchConfig.field c BenchConfig.zero).1.N, 
            (mappingStruct BenchConfig.field c BenchConfig.zero).1.Auth, 
            (mappingStruct BenchConfig.field c BenchConfig.zero).1.HTTP, 
            (mappingStruct BenchConfig.field c BenchConfig.zero).1.ServiceResolution⟩ := rfl
      rw [hx]
      beta_reduce at fName fC fN fAuth fHTTP fServiceResolution
      rw [fName, fC, fN, fAuth, fHTTP, fServiceResolution]
      rfl
    simp only [unmarshalStruct, he, hout]

theorem entry_ok (v : Node) (h : v.isEntry = true) (old : BenchConfig) :
    (unmarshalStruct BenchConfig.zero BenchConfig.field v old).terrors = 0 := by
  have h₁ := (unmarshalStruct_errs BenchConfig.zero BenchConfig.field BenchConfig_field_stable v
      old BenchConfig.zero).1
  rw [h₁, unmarshalEntry_read v h]

theorem unmarshalDefaults_read (n : Node) (h : n.isDefaults = true) :
    unmarshalStruct Benchmark.zero Benchmark.field n newBenchmark = ⟨n.asDefaults, true, 0⟩ := by
  cases n with
  | scalar v r => cases r <;> first | rfl | simp [Node.isDefaults, Node.isRecord] at h
  | sequence c => simp [Node.isDefaults, Node.isRecord] at h
  | mapping c =>
    simp only [Node.isDefaults, Node.isRecord, Bool.and_eq_true] at h
    obtain ⟨hw, ⟨hC, hN⟩⟩ := h
    have fC := field_read Benchmark.field (fun a => a.C) "concurrency" _
      (fun v old => (unmarshalInt v old).out) rfl (fun _ _ => rfl)
      Benchmark_keeps_C c hw newBenchmark Node.asInt
      (fun v hv => congrArg Decoded.out (unmarshalInt_read v (allUnder_find _ _ _ v hC hv) _))
    have fN := field_read Benchmark.field (fun a => a.N) "requests" _
      (fun v old => (unmarshalInt v old).out) rfl (fun _ _ => rfl)
      Benchmark_keeps_N c hw newBenchmark Node.asInt
      (fun v hv => congrArg Decoded.out (unmarshalInt_read v (allUnder_find _ _ _ v hN hv) _))
    have he : (mappingStruct Benchmark.field c newBenchmark).2 = 0 := by
      refine mappingStruct_noerr Benchmark.field c (wellKeyed_keys c hw) ?_ _
      intro kv hkv name dec hk hd t
      unfold Benchmark.field at hd
      split_ifs at hd with e1 e2 <;> cases hd
      · subst e1
        exact int_ok kv.2 (allUnder_mem _ _ (.mapping c) kv hC hkv hk) _
      · subst e2
        exact int_ok kv.2 (allUnder_mem _ _ (.mapping c) kv hN hkv hk) _
    have hout : (mappingStruct Benchmark.field c newBenchmark).1 = (Node.mapping c).asDefaults := by
      have hx : (mappingStruct Benchmark.field c newBenchmark).1 =
          ⟨(mappingStruct Benchmark.field c newBenchmark).1.C, 
            (mappingStruct Benchmark.field c newBenchmark).1.N⟩ := rfl
      rw [hx]
      beta_reduce at fC fN
      rw [fC, fN]
      rfl
    simp only [unmarshalStruct, he, hout]

theorem defaults_ok (v : Node) (h : v.isDefaults = true) (old : Benchmark) :
    (unmarshalStruct Benchmark.zero Benchmark.field v old).terrors = 0 := by
  have h₁ := (unmarshalStruct_errs Benchmark.zero Benchmark.field Benchmark_field_stable v old
      newBenchmark).1
  rw [h₁, unmarshalDefaults_read v h]

theorem unmarshalEntries_read (n : Node) (h : n.isEntries = true) :
    unmarshalMap BenchConfig.zero unmarshalBenchConfig n none = ⟨n.asEntries, true, 0⟩ := by
  cases n with
  | scalar v r => cases r <;> first | rfl | simp [Node.isEntries] at h
  | sequence c => simp [Node.isEntries] at h
  | mapping c =>
    simp only [Node.isEntries, Bool.and_eq_true, List.all_eq_true] at h
    have hm := mappingMap_read BenchConfig.zero unmarshalBenchConfig Node.asEntry c h.1
      (fun kv hkv => unmarshalEntry_read kv.2 (h.2 kv hkv)) [] (by simp)
    simp [unmarshalMap, Node.asEntries, hm]

theorem entries_ok (v : Node) (h : v.isEntries = true) (old : GoMap BenchConfig) :
    (unmarshalMap BenchConfig.zero unmarshalBenchConfig v old).terrors = 0 := by
  rw [(unmarshalMap_errs _ _ v old none).1, unmarshalEntries_read v h]

theorem unmarshalBenchmarks_read (n : Node) (h : n.isBenchmarks = true) :
    unmarshalStruct Benchmarks.zero Benchmarks.field n newBenchmarks =
      ⟨n.asBenchmarks, true, 0⟩ := by
  cases n with
  | scalar v r => simp [Node.isBenchmarks] at h
  | sequence c => simp [Node.isBenchmarks] at h
  | mapping c =>
    simp only [Node.isBenchmarks, Bool.and_eq_true] at h
    obtain ⟨⟨⟨hw, hDefaults⟩, hServices⟩, hContainers⟩ := h
    have fDefaults := field_read Benchmarks.field (fun a => a.Defaults) "defaults" _
      (fun v old => (unmarshalStruct Benchmark.zero Benchmark.field v old).out) rfl (fun _ _ => rfl)
      Benchmarks_keeps_Defaults c hw newBenchmarks Node.asDefaults
      (fun v hv => congrArg Decoded.out (unmarshalDefaults_read v (allUnder_find _ _ _ v hDefaults
          hv)))
    have fServices := field_read Benchmarks.field (fun a => a.Services) "services" _
      (fun v old => (unmarshalMap BenchConfig.zero unmarshalBenchConfig v old).out) rfl (fun _ _ =>
          rfl)
      Benchmarks_keeps_Services c hw newBenchmarks Node.asEntries
      (fun v hv => congrArg Decoded.out (unmarshalEntries_read v (allUnder_find _ _ _ v hServices
          hv)))
    have fContainers := field_read Benchmarks.field (fun a => a.Containers) "containers" _
      (fun v old => (unmarshalMap BenchConfig.zero unmarshalBenchConfig v old).out) rfl (fun _ _ =>
          rfl)
      Benchmarks_keeps_Containers c hw newBenchmarks Node.asEntries
      (fun v hv => congrArg Decoded.out (unmarshalEntries_read v (allUnder_find _ _ _ v hContainers
          hv)))
    have he : (mappingStruct Benchmarks.field c newBenchmarks).2 = 0 := by
      refine mappingStruct_noerr Benchmarks.field c (wellKeyed_keys c hw) ?_ _
      intro kv hkv name dec hk hd t
      unfold Benchmarks.field at hd
      split_ifs at hd with e1 e2 e3 <;> cases hd
      · subst e1
        exact defaults_ok kv.2 (allUnder_mem _ _ (.mapping c) kv hDefaults hkv hk) _
      · subst e2
        exact entries_ok kv.2 (allUnder_mem _ _ (.mapping c) kv hServices hkv hk) _
      · subst e3
        exact entries_ok kv.2 (allUnder_mem _ _ (.mapping c) kv hContainers hkv hk) _
    have hout : (mappingStruct Benchmarks.field c newBenchmarks).1 = (Node.mapping c).asBenchmarks
        := by
      have hx : (mappingStruct Benchmarks.field c newBenchmarks).1 =
          ⟨(mappingStruct Benchmarks.field c newBenchmarks).1.Defaults, 
            (mappingStruct Benchmarks.field c newBenchmarks).1.Services, 
            (mappingStruct Benchmarks.field c newBenchmarks).1.Containers⟩ := rfl
      rw [hx]
      beta_reduce at fDefaults fServices fContainers
      rw [fDefaults, fServices, fContainers]
      rfl
    simp only [unmarshalStruct, he, hout]

theorem unmarshalBenchmarksPtr_read (n : Node) (h : n.isBenchmarks = true) :
    unmarshalBenchmarksPtr n (some newBenchmarks) = ⟨some n.asBenchmarks, true, 0⟩ := by
  cases n with
  | scalar v r => simp [Node.isBenchmarks] at h
  | sequence c => simp [Node.isBenchmarks] at h
  | mapping c =>
    simp only [unmarshalBenchmarksPtr, Option.getD_some, unmarshalBenchmarks_read _ h]

theorem benchmarksPtr_ok (v : Node) (h : v.isBenchmarks = true) (old : Option Benchmarks) :
    (unmarshalBenchmarksPtr v old).terrors = 0 := by
  rw [unmarshalBenchmarksPtr_errs v old (some newBenchmarks), unmarshalBenchmarksPtr_read v h]

theorem unmarshalRoot_read (root : Node) (h : matchesSchema root = true) :
    unmarshalRoot root { Benchmarks := some newBenchmarks } = (storeOf root, 0) := by
  cases root with
  | scalar v r => simp [matchesSchema] at h
  | sequence c => simp [matchesSchema] at h
  | mapping c =>
    simp only [matchesSchema, Bool.and_eq_true] at h
    obtain ⟨hw, hb⟩ := h
    have hp := field_read Bench.field (fun s => s.Benchmarks) "benchmarks" _
      (fun v old => (unmarshalBenchmarksPtr v old).out) rfl (fun _ _ => rfl)
      Bench_keeps_Benchmarks c hw { Benchmarks := some newBenchmarks }
      (fun v => some v.asBenchmarks)
      (fun v hv => congrArg Decoded.out
        (unmarshalBenchmarksPtr_read v (allUnder_find _ _ _ v hb hv)))
    have he : (mappingStruct Bench.field c { Benchmarks := some newBenchmarks }).2 = 0 := by
      refine mappingStruct_noerr Bench.field c (wellKeyed_keys c hw) ?_ _
      intro kv hkv name dec hk hd t
      unfold Bench.field at hd
      split_ifs at hd with e₁
      cases hd
      subst e₁
      exact benchmarksPtr_ok kv.2 (allUnder_mem _ _ (.mapping c) kv hb hkv hk) _
    have hout : (mappingStruct Bench.field c { Benchmarks := some newBenchmarks }).1 =
        storeOf (.mapping c) := by
      have hx : (mappingStruct Bench.field c { Benchmarks := some newBenchmarks }).1 =
          ⟨(mappingStruct Bench.field c { Benchmarks := some newBenchmarks }).1.Benchmarks⟩ :=
        rfl
      rw [hx]
      beta_reduce at hp
      rw [hp]
      simp only [storeOf]
      cases (Node.mapping c).find "benchmarks" <;> rfl
    have hpair : mappingStruct Bench.field c { Benchmarks := some newBenchmarks } =
        ((mappingStruct Bench.field c { Benchmarks := some newBenchmarks }).1,
          (mappingStruct Bench.field c { Benchmarks := some newBenchmarks }).2) := rfl
    rw [unmarshalRoot, hpair, he, hout]

theorem NewBench_read (fs : FileSystem) (path : String) (root : Node)
    (hf : fs path = .ok (.document root)) (hm : matchesSchema root = true) :
    NewBench fs path = (storeOf root, none) := by
  simp [NewBench, load, hf, Unmarshal, unmarshalRoot_read root hm]

/-! ## Decoding a document into a store that holds entries -/

theorem mappingStruct_rel {T : Type} (field : String → Option (Node → T → T × Nat))
    (R : T → T → Prop) (children : List (Node × Node))
    (hstep : ∀ kv ∈ children, ∀ name dec, kv.1.key = some name → field name = some dec →
      ∀ x y, R x y → R (dec kv.2 x).1 (dec kv.2 y).1)
    (x y : T) (h : R x y) :
    R (mappingStruct field children x).1 (mappingStruct field children y).1 := by
  induction children generalizing x y with
  | nil => exact h
  | cons kv rest ih =>
    obtain ⟨nk, nv⟩ := kv
    have hrest : ∀ kv ∈ rest, ∀ name dec, kv.1.key = some name → field name = some dec →
        ∀ x y, R x y → R (dec kv.2 x).1 (dec kv.2 y).1 :=
      fun kv hkv => hstep kv (List.mem_cons_of_mem _ hkv)
    simp only [mappingStruct]
    split
    · rename_i hg
      cases hd : field (unmarshalString nk "").out with
      | none => exact ih hrest x y h
      | some dec =>
        exact ih hrest _ _
          (hstep (nk, nv) (List.mem_cons_self _ _) _ dec (key_of_good nk hg) hd x y h)
    · exact ih hrest x y h

theorem orElse_assoc {α : Type} (p q r : Option α) :
    ((p.orElse fun _ => q).orElse fun _ => r) = (p.orElse fun _ => q.orElse fun _ => r) := by
  cases p <;> rfl

theorem lookup_mappingMap {α : Type} (zero : α) (elem : Node → α → Decoded α) (k : String)
    (children : List (Node × Node)) (m : List (String × α)) :
    (mappingMap zero elem children m).1.lookup k =
      ((mappingMap zero elem children []).1.lookup k).orElse fun _ => m.lookup k := by
  induction children generalizing m with
  | nil => simp [mappingMap, List.lookup]
  | cons kv rest ih =>
    obtain ⟨nk, nv⟩ := kv
    simp only [mappingMap]
    split
    · by_cases hg : (elem nv zero).good = true
      · simp only [hg, if_true]
        rw [ih (setIndex _ _ m), ih (setIndex _ _ [])]
        cases (mappingMap zero elem rest []).1.lookup k with
        | some x => simp
        | none =>
          by_cases h : k = (unmarshalString nk "").out
          · simp [lookup_setIndex, h]
          · have hb : (k == (unmarshalString nk "").out) = false := by simpa using h
            simp [lookup_setIndex, setIndex, List.lookup, h, hb]
      · simp only [hg]
        exact ih m
    · exact ih m

theorem get_unmarshalMap {α : Type} (zero : α) (elem : Node → α → Decoded α) (v : Node)
    (hv : v.isNull = false) (m : GoMap α) (k : String) :
    (unmarshalMap zero elem v m).out.get k =
      ((unmarshalMap zero elem v none).out.get k).orElse fun _ => m.get k := by
  cases v with
  | scalar t r => cases r <;> first | rfl | simp [Node.isNull] at hv
  | sequence c => rfl
  | mapping c =>
    simp only [unmarshalMap, GoMap.get, Option.getD_none]
    rw [lookup_mappingMap]
    cases m <;> rfl

theorem merged_step {α : Type} (zero : α) (elem : Node → α → Decoded α) (v : Node)
    (hv : v.isNull = false) (a x y : GoMap α) (k : String)
    (h : x.get k = ((y.get k).orElse fun _ => a.get k)) :
    (unmarshalMap zero elem v x).out.get k =
      (((unmarshalMap zero elem v y).out.get k).orElse fun _ => a.get k) := by
  rw [get_unmarshalMap zero elem v hv x, get_unmarshalMap zero elem v hv y, h, orElse_assoc]

theorem Benchmarks_field_merged (a : Benchmarks) (bn : Node)
    (hs : ∀ v ∈ bn.valuesOf "services", v.isNull = false)
    (hc : ∀ v ∈ bn.valuesOf "containers", v.isNull = false)
    (kv : Node × Node) (hkv : kv ∈ bn.pairs) (name : String)
    (dec : Node → Benchmarks → Benchmarks × Nat) (hk : kv.1.key = some name)
    (hd : Benchmarks.field name = some dec) (x y : Benchmarks) (h : Merged a x y) :
    Merged a (dec kv.2 x).1 (dec kv.2 y).1 := by
  unfold Benchmarks.field at hd
  split_ifs at hd with e₁ e₂ e₃ <;> cases hd
  · exact h
  · subst e₂
    intro k
    exact ⟨merged_step _ _ kv.2 (hs kv.2 (mem_valuesOf _ bn kv hkv hk)) _ _ _ k (h k).1,
      (h k).2⟩
  · subst e₃
    intro k
    exact ⟨(h k).1,
      merged_step _ _ kv.2 (hc kv.2 (mem_valuesOf _ bn kv hkv hk)) _ _ _ k (h k).2⟩

theorem unmarshalBenchmarks_merged (a : Benchmarks) (bn : Node) (hbn : bn.isNull = false)
    (hs : ∀ v ∈ bn.valuesOf "services", v.isNull = false)
    (hc : ∀ v ∈ bn.valuesOf "containers", v.isNull = false)
    (x y : Benchmarks) (h : Merged a x y) :
    Merged a (unmarshalStruct Benchmarks.zero Benchmarks.field bn x).out
      (unmarshalStruct Benchmarks.zero Benchmarks.field bn y).out := by
  cases bn with
  | scalar t r => cases r <;> first | exact h | simp [Node.isNull] at hbn
  | sequence c => exact h
  | mapping c =>
    exact mappingStruct_rel Benchmarks.field (Merged a) c
      (fun kv hkv name dec hk hd x y h =>
        Benchmarks_field_merged a (.mapping c) hs hc kv hkv name dec hk hd x y h) x y h

theorem unmarshalBenchmarksPtr_merged (a : Benchmarks) (bn : Node) (hbn : bn.isNull = false)
    (hs : ∀ v ∈ bn.valuesOf "services", v.isNull = false)
    (hc : ∀ v ∈ bn.valuesOf "containers", v.isNull = false)
    (ox oy : Option Benchmarks) (h : PtrMerged a ox oy) :
    PtrMerged a (unmarshalBenchmarksPtr bn ox).out (unmarshalBenchmarksPtr bn oy).out := by
  obtain ⟨x, y, rfl, rfl, hm⟩ := h
  have hstruct := unmarshalBenchmarks_merged a bn hbn hs hc x y hm
  cases bn with
  | scalar t r =>
    simp only [unmarshalBenchmarksPtr]
    split
    · split
      · rename_i hr
        subst hr
        simp [Node.isNull] at hbn
      · exact ⟨x, y, rfl, rfl, hm⟩
    · exact ⟨_, _, rfl, rfl, hstruct⟩
  | mapping c => exact ⟨_, _, rfl, rfl, hstruct⟩
  | sequence c => exact ⟨_, _, rfl, rfl, hstruct⟩

theorem unmarshalRoot_merged (a : Benchmarks) (root : Node) (h : noNullSection root = true)
    (s t : Bench) (hst : PtrMerged a s.Benchmarks t.Benchmarks) :
    PtrMerged a (unmarshalRoot root s).1.Benchmarks (unmarshalRoot root t).1.Benchmarks := by
  simp only [noNullSection, Bool.and_eq_true, Bool.not_eq_true', List.all_eq_true] at h
  obtain ⟨hroot, hsec⟩ := h
  cases root with
  | scalar v r =>
    simp only [unmarshalRoot]
    split
    · exact hst
    · cases r <;> first | exact hst | simp [Node.isNull] at hroot
  | sequence c => exact hst
  | mapping c =>
    refine mappingStruct_rel Bench.field
      (fun s t => PtrMerged a s.Benchmarks t.Benchmarks) c ?_ s t hst
    intro kv hkv name dec hk hd x y hxy
    unfold Bench.field at hd
    split_ifs at hd with e₁
    cases hd
    subst e₁
    have hb := hsec kv.2 (mem_valuesOf "benchmarks" (.mapping c) kv hkv hk)
    exact unmarshalBenchmarksPtr_merged a kv.2 hb.1.1 hb.1.2 hb.2 _ _ hxy

theorem merged_self (a : Benchmarks) : Merged a a newBenchmarks := by
  intro k
  exact ⟨rfl, rfl⟩

theorem load_merged (fs : FileSystem) (path : String) (root : Node)
    (hf : fs path = .ok (.document root)) (h : noNullSection root = true)
    (a : Benchmarks) (s t : Bench) (hst : PtrMerged a s.Benchmarks t.Benchmarks) :
    PtrMerged a (load fs path s).1.Benchmarks (load fs path t).1.Benchmarks := by
  simp only [load, hf, Unmarshal]
  exact unmarshalRoot_merged a root h s t hst

theorem lookup_entries {α : Type} (rd : Node → α) (c : List (Node × Node))
    (hw : wellKeyed c = true) (kv : Node × Node) (hkv : kv ∈ c) :
    (c.map fun p => (p.1.asText, rd p.2)).lookup kv.1.asText = some (rd kv.2) := by
  induction c with
  | nil => simp at hkv
  | cons p rest ih =>
    obtain ⟨nk, nv⟩ := p
    obtain ⟨hsome, hnot, hrest⟩ := wellKeyed_cons nk nv rest hw
    rcases List.mem_cons.1 hkv with h | h
    · subst h
      simp [List.lookup]
    · have hne : kv.1.asText ≠ nk.asText := by
        intro e
        apply hnot
        rw [(key_read nk hsome).1, ← e, ← (key_read kv.1 (wellKeyed_keys rest hrest kv h)).1]
        exact List.mem_map_of_mem (fun kv => kv.1.key) h
      have hb : (kv.1.asText == nk.asText) = false := by simpa using hne
      simp only [List.map_cons, List.lookup, hb]
      exact ih hrest h

theorem get_asEntries (sv : Node) (hs : sv.isEntries = true) (kv : Node × Node)
    (hkv : kv ∈ sv.pairs) : sv.asEntries.get kv.1.asText = some kv.2.asEntry := by
  cases sv with
  | scalar v r => simp [Node.pairs] at hkv
  | sequence c => simp [Node.pairs] at hkv
  | mapping c =>
    simp only [Node.isEntries, Bool.and_eq_true] at hs
    exact lookup_entries Node.asEntry c hs.1 kv hkv

/-! ## The claims -/

/-- C1: for every `Benchmark`, with any integers `C` and `N`, `Empty` is true
exactly when `C = 0` and `N = 0`; it is false when exactly one of the two is
zero, and when either is negative. -/
theorem Benchmark.Empty_iff (b : Benchmark) :
    (b.Empty = true ↔ b.C = 0 ∧ b.N = 0) ∧
    ((b.C = 0 ∧ b.N ≠ 0) ∨ (b.C ≠ 0 ∧ b.N = 0) → b.Empty = false) ∧
    (b.C < 0 ∨ b.N < 0 → b.Empty = false) := by
  have h : b.Empty = true ↔ b.C = 0 ∧ b.N = 0 := by simp [Benchmark.Empty]
  refine ⟨h, ?_, ?_⟩
  · intro hz
    cases he : b.Empty with
    | false => rfl
    | true =>
      have := h.1 he
      omega
  · intro hneg
    cases he : b.Empty with
    | false => rfl
    | true =>
      have := h.1 he
      omega

/-- C2: `DefaultBenchSpec` is one fixed value, which takes no store and no
state: `C = 1`, `N = 200`, method `GET`, path `/`, and every other field at its
zero value (empty strings, false flags, nil headers). -/
theorem DefaultBenchSpec_value :
    DefaultBenchSpec =
      { Name := "", C := 1, N := 200
        Auth := { User := "", Password := "" }
        HTTP := { Method := "GET", Host := "", Path := "/", HTTPS := false, HTTP2 := false
                  Body := "", Headers := none }
        ServiceResolution := { Mode := "" } } :=
  rfl

/-- C3: when the file of `path` cannot be read, `NewBench` returns the read
error itself together with a store whose `Benchmarks` is not nil, with
`Defaults` of `C = 1`, `N = 200` and no entry in `Services` or `Containers`. -/
theorem NewBench_unreadable (fs : FileSystem) (path : String) (err : ReadError)
    (hf : fs path = .error err) :
    (NewBench fs path).2 = some (.read err) ∧
    ∃ b, (NewBench fs path).1.Benchmarks = some b ∧ b.Defaults = { C := 1, N := 200 } ∧
      b.Services.len = 0 ∧ b.Containers.len = 0 ∧
      ∀ k, b.Services.get k = none ∧ b.Containers.get k = none := by
  have h : NewBench fs path = ({ Benchmarks := some newBenchmarks }, some (.read err)) := by
    simp only [NewBench, load, hf]
  rw [h]
  exact ⟨rfl, newBenchmarks, rfl, rfl, rfl, rfl, fun _ => ⟨rfl, rfl⟩⟩

theorem NewBench_unreadable_witness :
    fsAB "missing.yml" = .error ⟨"no such file or directory"⟩ ∧
    (NewBench fsAB "missing.yml").2 = some (.read ⟨"no such file or directory"⟩) ∧
    ∃ b, (NewBench fsAB "missing.yml").1.Benchmarks = some b ∧
      b.Defaults = { C := 1, N := 200 } ∧ b.Services.len = 0 ∧ b.Containers.len = 0 ∧
      ∀ k, b.Services.get k = none ∧ b.Containers.get k = none :=
  ⟨rfl, NewBench_unreadable fsAB "missing.yml" ⟨"no such file or directory"⟩ rfl⟩

/-- C4: for every file system, path and store, `Reload` returns the error that
`NewBench` returns for the path.  The error is of two kinds: when the file
cannot be read it is the read error, and the store is returned as it was
(nothing is decoded); when the file is read it is never a read error: a
syntax error of the content is returned as the parse error, decoding errors
are returned as the parse error holding them, and a content without them (an
empty stream, a document with no type error, every valid document of the
schema) gives no error. -/
theorem load_error_kinds (fs : FileSystem) (path : String) (s : Bench) :
    (Reload fs path s).2 = (NewBench fs path).2 ∧
    (∀ err, fs path = .error err →
      (NewBench fs path).2 = some (.read err) ∧ Reload fs path s = (s, some (.read err))) ∧
    (∀ msg, fs path = .ok (.malformed msg) →
      (NewBench fs path).2 = some (.parse (.malformed msg))) ∧
    (fs path = .ok .empty → (NewBench fs path).2 = none) ∧
    (∀ root, fs path = .ok (.document root) →
      (NewBench fs path).2 =
        if (unmarshalRoot root s).2 = 0 then none
        else some (.parse (.typeError (unmarshalRoot root s).2))) ∧
    (∀ d : BenchDoc, d.Valid → fs path = .ok (.document d.toNode) →
      (NewBench fs path).2 = none) := by
  refine ⟨load_err fs path _ _, ?_, ?_, ?_, ?_, ?_⟩
  · intro err hf
    simp [NewBench, Reload, load, hf]
  · intro msg hf
    simp [NewBench, load, hf, Unmarshal]
  · intro hf
    simp [NewBench, load, hf, Unmarshal]
  · intro root hf
    have h : (NewBench fs path).2 = (load fs path s).2 := load_err fs path _ s
    rw [h]
    simp [load, hf, Unmarshal]
  · intro d hv hf
    simp [NewBench, load_toNode fs path d hv hf]

/-- C5, as the code has it: when a store loaded from a file A is reloaded from
a file B, `Reload` returns the error that loading B alone returns, which is no
error when B matches the schema.  If neither document is null nor gives
`benchmarks`, `services` or `containers` as null, the `Services` and
`Containers` mappings after the reload hold every entry of B and, besides
them, every entry of A whose key B does not have: for each key the entry after
the reload is the one B alone gives, and the one A gave when B has none.  If B
is a mapping with distinct keys whose `benchmarks` is a mapping with distinct
keys that gives `services` or `containers` as null, that mapping of the store
is nil after the reload. -/
theorem Reload_merges (fs : FileSystem) (pA pB : String) (A B : Node)
    (hfA : fs pA = .ok (.document A)) (hfB : fs pB = .ok (.document B)) :
    (Reload fs pB (NewBench fs pA).1).2 = (NewBench fs pB).2 ∧
    (matchesSchema B = true → (Reload fs pB (NewBench fs pA).1).2 = none) ∧
    (noNullSection A = true → noNullSection B = true →
      ∃ a b r, (NewBench fs pA).1.Benchmarks = some a ∧
        (NewBench fs pB).1.Benchmarks = some b ∧
        (Reload fs pB (NewBench fs pA).1).1.Benchmarks = some r ∧
        ∀ k, r.Services.get k = ((b.Services.get k).orElse fun _ => a.Services.get k) ∧
          r.Containers.get k = ((b.Containers.get k).orElse fun _ => a.Containers.get k)) ∧
    (∀ bn, B.wellKeyedMapping = true → B.find "benchmarks" = some bn →
      bn.wellKeyedMapping = true →
      ∃ r, (Reload fs pB (NewBench fs pA).1).1.Benchmarks = some r ∧
        (∀ v, bn.find "services" = some v → v.isNull = true → r.Services = none) ∧
        (∀ v, bn.find "containers" = some v → v.isNull = true → r.Containers = none)) := by
  have herr : (Reload fs pB (NewBench fs pA).1).2 = (NewBench fs pB).2 := load_err fs pB _ _
  refine ⟨herr, ?_, ?_, ?_⟩
  · intro hm
    rw [herr, NewBench_read fs pB B hfB hm]
  · intro hA hB
    obtain ⟨a, -, ha, -, -⟩ := load_merged fs pA A hfA hA newBenchmarks
      { Benchmarks := some newBenchmarks } { Benchmarks := some newBenchmarks }
      ⟨_, _, rfl, rfl, merged_self newBenchmarks⟩
    obtain ⟨r, b, hr, hb, hm⟩ := load_merged fs pB B hfB hB a (NewBench fs pA).1
      { Benchmarks := some newBenchmarks } ⟨a, newBenchmarks, ha, rfl, merged_self a⟩
    exact ⟨a, b, r, ha, hb, hr, hm⟩
  · intro bn hwB hfind hwbn
    cases B with
    | scalar v r => simp [Node.wellKeyedMapping] at hwB
    | sequence c => simp [Node.wellKeyedMapping] at hwB
    | mapping c =>
      cases bn with
      | scalar v r => simp [Node.wellKeyedMapping] at hwbn
      | sequence cb => simp [Node.wellKeyedMapping] at hwbn
      | mapping cb =>
        have hp := mappingStruct_proj Bench.field (fun s => s.Benchmarks) "benchmarks" _
          (fun v old => (unmarshalBenchmarksPtr v old).out) rfl (fun _ _ => rfl)
          Bench_keeps_Benchmarks c (valuesOf_length_le_one _ c hwB) (NewBench fs pA).1
        have hs := mappingStruct_proj Benchmarks.field (fun b => b.Services) "services" _
          (fun v old => (unmarshalMap BenchConfig.zero unmarshalBenchConfig v old).out) rfl
          (fun _ _ => rfl) Benchmarks_keeps_Services cb (valuesOf_length_le_one _ cb hwbn)
          ((NewBench fs pA).1.Benchmarks.getD Benchmarks.zero)
        have hc := mappingStruct_proj Benchmarks.field (fun b => b.Containers) "containers" _
          (fun v old => (unmarshalMap BenchConfig.zero unmarshalBenchConfig v old).out) rfl
          (fun _ _ => rfl) Benchmarks_keeps_Containers cb (valuesOf_length_le_one _ cb hwbn)
          ((NewBench fs pA).1.Benchmarks.getD Benchmarks.zero)
        rw [hfind] at hp
        have hload : (Reload fs pB (NewBench fs pA).1).1 =
            (mappingStruct Bench.field c (NewBench fs pA).1).1 := by
          simp [Reload, load, hfB, Unmarshal, unmarshalRoot]
        rw [hload]
        refine ⟨_, hp, ?_, ?_⟩
        · intro v hv hnull
          rw [hv] at hs
          show (mappingStruct Benchmarks.field cb _).1.Services = none
          rw [hs]
          cases v with
          | scalar t r => cases r <;> first | rfl | simp [Node.isNull] at hnull
          | mapping x => simp [Node.isNull] at hnull
          | sequence x => simp [Node.isNull] at hnull
        · intro v hv hnull
          rw [hv] at hc
          show (mappingStruct Benchmarks.field cb _).1.Containers = none
          rw [hc]
          cases v with
          | scalar t r => cases r <;> first | rfl | simp [Node.isNull] at hnull
          | mapping x => simp [Node.isNull] at hnull
          | sequence x => simp [Node.isNull] at hnull

theorem Reload_merges_witness :
    fsAB "a.yml" = .ok (.document docA.toNode) ∧ fsAB "b.yml" = .ok (.document docB.toNode) ∧
    noNullSection docA.toNode = true ∧ noNullSection docB.toNode = true ∧
    matchesSchema docB.toNode = true ∧
    (Reload fsAB "b.yml" (NewBench fsAB "a.yml").1).2 = none ∧
    ∃ a b r, (NewBench fsAB "a.yml").1.Benchmarks = some a ∧
      (NewBench fsAB "b.yml").1.Benchmarks = some b ∧
      (Reload fsAB "b.yml" (NewBench fsAB "a.yml").1).1.Benchmarks = some r ∧
      ∀ k, r.Services.get k = ((b.Services.get k).orElse fun _ => a.Services.get k) ∧
        r.Containers.get k = ((b.Containers.get k).orElse fun _ => a.Containers.get k) :=
  ⟨rfl, rfl, by decide, by decide, by decide,
    (Reload_merges fsAB "a.yml" "b.yml" docA.toNode docB.toNode rfl rfl).2.1 (by decide),
    (Reload_merges fsAB "a.yml" "b.yml" docA.toNode docB.toNode rfl rfl).2.2.1 (by decide)
      (by decide)⟩

/-- C5 as stated fails: `default/nginx` is a service and `c1` a container of
the first file and neither is in the second file, both files are valid and load
without error, and after the reload from the second file both entries are
still in the store, next to the service of the second file. -/
theorem Reload_keeps_old_entries :
    docA.Valid ∧ docB.Valid ∧
    docA.toBenchmarks.Services.get "default/nginx" = some fullEntry.toConfig ∧
    docA.toBenchmarks.Containers.get "c1" = some bareEntry.toConfig ∧
    docB.toBenchmarks.Services.get "default/nginx" = none ∧
    docB.toBenchmarks.Containers.get "c1" = none ∧
    NewBench fsAB "a.yml" = (docA.toBench, none) ∧
    ∃ r, Reload fsAB "b.yml" (NewBench fsAB "a.yml").1 = ({ Benchmarks := some r }, none) ∧
      r.Services.get "default/nginx" = some fullEntry.toConfig ∧
      r.Services.get "default/zorg" = some bareEntry.toConfig ∧
      r.Containers.get "c1" = some bareEntry.toConfig :=
  ⟨by decide, by decide, by decide, by decide, by decide, by decide, by decide,
    _, rfl, by decide, by decide, by decide⟩

/-- C6: constructing a store from a file whose content is `benchmarks: {}`
returns no error, `Defaults` stays the default of the constructor (`C = 1`,
`N = 200`), and `Services` and `Containers` hold no entry. -/
theorem NewBench_empty_benchmarks (fs : FileSystem) (path : String)
    (hf : fs path = .ok (.document emptyBenchmarksDoc)) :
    (NewBench fs path).2 = none ∧
    ∃ b, (NewBench fs path).1.Benchmarks = some b ∧ b.Defaults = { C := 1, N := 200 } ∧
      b.Services.len = 0 ∧ b.Containers.len = 0 ∧
      ∀ k, b.Services.get k = none ∧ b.Containers.get k = none := by
  have h : NewBench fs path = ({ Benchmarks := some newBenchmarks }, none) := by
    simp only [NewBench, load, hf]
    rfl
  rw [h]
  exact ⟨rfl, newBenchmarks, rfl, rfl, rfl, rfl, fun _ => ⟨rfl, rfl⟩⟩

theorem NewBench_empty_benchmarks_witness :
    (fun _ => .ok (.document emptyBenchmarksDoc) : FileSystem) "bench.yml" =
      .ok (.document emptyBenchmarksDoc) ∧
    (NewBench (fun _ => .ok (.document emptyBenchmarksDoc)) "bench.yml").2 = none ∧
    ∃ b, (NewBench (fun _ => .ok (.document emptyBenchmarksDoc)) "bench.yml").1.Benchmarks =
        some b ∧ b.Defaults = { C := 1, N := 200 } ∧
      b.Services.len = 0 ∧ b.Containers.len = 0 ∧
      ∀ k, b.Services.get k = none ∧ b.Containers.get k = none :=
  ⟨rfl, NewBench_empty_benchmarks (fun _ => .ok (.document emptyBenchmarksDoc)) "bench.yml" rfl⟩

/-- C7: for every document, each entry that `NewBench` loads into `Services`
or `Containers` is decoded from an entry node of the document under that name,
starting from the zero value, and it has the zero value for every key the node
omits: `C = 0` without `concurrency`, `N = 0` without `requests`, `Method = ""`
without `http.method`, `Mode = ""` without `serviceResolution`; an entry that
omits `concurrency`, `requests` or `http.method` is not `DefaultBenchSpec`. -/
theorem NewBench_zero_where_omitted (fs : FileSystem) (path : String) (root : Node)
    (hf : fs path = .ok (.document root)) (b : Benchmarks)
    (hb : (NewBench fs path).1.Benchmarks = some b) (k : String) (e : BenchConfig) :
    (b.Services.get k = some e →
      ∃ kv ∈ entryNodes "services" root, kv.1.key = some k ∧
        e = (unmarshalBenchConfig kv.2 BenchConfig.zero).out ∧ ZeroWhereOmitted kv.2 e) ∧
    (b.Containers.get k = some e →
      ∃ kv ∈ entryNodes "containers" root, kv.1.key = some k ∧
        e = (unmarshalBenchConfig kv.2 BenchConfig.zero).out ∧ ZeroWhereOmitted kv.2 e) := by
  have ho := NewBench_origin fs path root hf b hb
  have hget : ∀ m : GoMap BenchConfig, m.get k = some e → (k, e) ∈ m.getD [] := by
    intro m hm
    cases m with
    | none => simp [GoMap.get] at hm
    | some l => exact mem_of_lookup k e l hm
  constructor
  · intro he
    obtain ⟨kv, hkv, hk, hdec⟩ := ho.1 k e (hget _ he)
    exact ⟨kv, hkv, hk, hdec, hdec ▸ zeroWhereOmitted kv.2⟩
  · intro he
    obtain ⟨kv, hkv, hk, hdec⟩ := ho.2 k e (hget _ he)
    exact ⟨kv, hkv, hk, hdec, hdec ▸ zeroWhereOmitted kv.2⟩

theorem NewBench_zero_where_omitted_witness :
    fsAB "a.yml" = .ok (.document docA.toNode) ∧
    (NewBench fsAB "a.yml").1.Benchmarks = some docA.toBenchmarks ∧
    docA.toBenchmarks.Services.get "blee/fred" = some bareEntry.toConfig ∧
    ((docA.toBenchmarks.Services.get "blee/fred" = some bareEntry.toConfig →
      ∃ kv ∈ entryNodes "services" docA.toNode, kv.1.key = some "blee/fred" ∧
        bareEntry.toConfig = (unmarshalBenchConfig kv.2 BenchConfig.zero).out ∧
        ZeroWhereOmitted kv.2 bareEntry.toConfig) ∧
    (docA.toBenchmarks.Containers.get "blee/fred" = some bareEntry.toConfig →
      ∃ kv ∈ entryNodes "containers" docA.toNode, kv.1.key = some "blee/fred" ∧
        bareEntry.toConfig = (unmarshalBenchConfig kv.2 BenchConfig.zero).out ∧
        ZeroWhereOmitted kv.2 bareEntry.toConfig)) :=
  ⟨rfl, by decide, by decide,
    NewBench_zero_where_omitted fsAB "a.yml" docA.toNode rfl docA.toBenchmarks (by decide)
      "blee/fred" bareEntry.toConfig⟩

/-- C8, as the code has it: for every document that matches the schema, its
integers within the range of a Go `int`, `NewBench` on a file holding it
returns no error and the store that the document describes, whatever the order
of its keys: `Defaults` as `defaults` gives it, and under every name of
`services` and of `containers` the entry with the concurrency, requests, auth,
http fields, resolution mode and headers of the document, the values of each
header in the order of the document. -/
theorem NewBench_roundtrip (fs : FileSystem) (path : String) (root : Node)
    (hm : matchesSchema root = true) (hf : fs path = .ok (.document root)) :
    NewBench fs path = (storeOf root, none) ∧
    ∀ bn, root.find "benchmarks" = some bn →
      ∃ b, (NewBench fs path).1.Benchmarks = some b ∧
        b.Defaults = ((bn.find "defaults").map Node.asDefaults).getD newBenchmark ∧
        (∀ sv, bn.find "services" = some sv →
          ∀ kv ∈ sv.pairs, b.Services.get kv.1.asText = some kv.2.asEntry) ∧
        (∀ cv, bn.find "containers" = some cv →
          ∀ kv ∈ cv.pairs, b.Containers.get kv.1.asText = some kv.2.asEntry) := by
  have h := NewBench_read fs path root hf hm
  refine ⟨h, ?_⟩
  intro bn hbn
  rw [h]
  have hb : bn.isBenchmarks = true := by
    cases root with
    | scalar v r => simp [matchesSchema] at hm
    | sequence c => simp [matchesSchema] at hm
    | mapping c =>
      simp only [matchesSchema, Bool.and_eq_true] at hm
      exact allUnder_find _ _ _ bn hm.2 hbn
  refine ⟨bn.asBenchmarks, by simp [storeOf, hbn], rfl, ?_, ?_⟩
  · intro sv hsv kv hkv
    have hs : sv.isEntries = true := by
      cases bn with
      | scalar v r => simp [Node.isBenchmarks] at hb
      | sequence c => simp [Node.isBenchmarks] at hb
      | mapping c =>
        simp only [Node.isBenchmarks, Bool.and_eq_true] at hb
        exact allUnder_find _ _ _ sv hb.1.2 hsv
    simp only [Node.asBenchmarks, hsv, Option.map_some', Option.getD_some]
    exact get_asEntries sv hs kv hkv
  · intro cv hcv kv hkv
    have hs : cv.isEntries = true := by
      cases bn with
      | scalar v r => simp [Node.isBenchmarks] at hb
      | sequence c => simp [Node.isBenchmarks] at hb
      | mapping c =>
        simp only [Node.isBenchmarks, Bool.and_eq_true] at hb
        exact allUnder_find _ _ _ cv hb.2 hcv
    simp only [Node.asBenchmarks, hcv, Option.map_some', Option.getD_some]
    exact get_asEntries cv hs kv hkv

theorem NewBench_roundtrip_witness :
    matchesSchema docC = true ∧ fsAB "c.yml" = .ok (.document docC) ∧
    (NewBench fsAB "c.yml" = (storeOf docC, none) ∧
    ∀ bn, docC.find "benchmarks" = some bn →
      ∃ b, (NewBench fsAB "c.yml").1.Benchmarks = some b ∧
        b.Defaults = ((bn.find "defaults").map Node.asDefaults).getD newBenchmark ∧
        (∀ sv, bn.find "services" = some sv →
          ∀ kv ∈ sv.pairs, b.Services.get kv.1.asText = some kv.2.asEntry) ∧
        (∀ cv, bn.find "containers" = some cv →
          ∀ kv ∈ cv.pairs, b.Containers.get kv.1.asText = some kv.2.asEntry)) :=
  ⟨by decide, rfl, NewBench_roundtrip fsAB "c.yml" docC (by decide) rfl⟩

/-- C8 as stated fails: the file `below.yml` gives the service `s1` the
concurrency `-9223372036854775809`, an integer one below the least Go `int`;
`NewBench` returns no error, and the entry it stores has the concurrency
`-9223372036854775808`, which is not the value of the document. -/
theorem NewBench_below_range :
    fsAB "below.yml" = .ok (.document docBelow) ∧
    entryNodes "services" docBelow =
      [(str "s1", .mapping [(str "concurrency", belowMinInt)])] ∧
    belowMinInt.asText = toString (-9223372036854775809 : Int) ∧
    (NewBench fsAB "below.yml").2 = none ∧
    ∃ b e, (NewBench fsAB "below.yml").1.Benchmarks = some b ∧
      b.Services.get "s1" = some e ∧ e.C = -9223372036854775808 ∧
      e.C ≠ -9223372036854775809 :=
  ⟨rfl, rfl, by decide, by decide, _, _, rfl, rfl, by decide, by decide⟩

/-- C9: for every store and every path whose file cannot be read, `Reload`
returns the read error and the store exactly as it was. -/
theorem Reload_unreadable (fs : FileSystem) (path : String) (s : Bench) (err : ReadError)
    (hf : fs path = .error err) :
    Reload fs path s = (s, some (.read err)) := by
  simp only [Reload, load, hf]

theorem Reload_unreadable_witness :
    fsAB "missing.yml" = .error ⟨"no such file or directory"⟩ ∧
    Reload fsAB "missing.yml" docA.toBench =
      (docA.toBench, some (.read ⟨"no such file or directory"⟩)) :=
  ⟨rfl, Reload_unreadable fsAB "missing.yml" docA.toBench ⟨"no such file or directory"⟩ rfl⟩

/-- C10: the built-in defaults are not empty: the `Defaults` of a new set is
`newBenchmark`, with `C = 1` and `N = 200`, and is not `Empty`; the `Benchmark`
made of the `C` and `N` of `DefaultBenchSpec` is `newBenchmark` and is not
`Empty` either. -/
theorem defaults_not_empty :
    newBenchmarks.Defaults = newBenchmark ∧
    newBenchmark = { C := 1, N := 200 } ∧
    newBenchmarks.Defaults.Empty = false ∧
    ({ C := DefaultBenchSpec.C, N := DefaultBenchSpec.N } : Benchmark) = newBenchmark ∧
    ({ C := DefaultBenchSpec.C, N := DefaultBenchSpec.N } : Benchmark).Empty = false :=
  ⟨rfl, rfl, by decide, rfl, by decide⟩

end Config
